import Mathlib

/-!
Verification of the Ping-Schedule interview scheduling agent.

This file shallowly embeds the core of the repository — the slot matcher
(`SchedulerAgent._find_overlap` and its datetime parsing helpers), the
negotiation state machine (`initiate_scheduling`, `handle_email_reply`,
`_process_candidate_availability`, `_handle_no_overlap`, `_confirm_booking`)
and the correlation-token extraction (`EmailClient._extract_request_id`) —
as executable Lean definitions, and proves or refutes the claims of the
specification against them.

Python `datetime` objects are modelled by a civil `DateTime` structure;
comparisons and subtraction between datetimes are mediated by the
order-and-difference isomorphism `toMicros` (total microseconds in the
proleptic Gregorian calendar, which is exactly the arithmetic Python's
naive `datetime`/`timedelta` implement).  External collaborators (the LLM
extraction call together with `json.loads`, the calendar adapter, the mail
transport) are oracle parameters of an `Env`, as the spec directs: they are
I/O adapters whose results the core consumes.  A raised exception from an
adapter is an `Except.error`; the embedding threads the (mutable, in Python)
`InterviewRequest` state explicitly so that the state at the moment an
exception propagates is visible.
-/

namespace PingSchedule

/-! ## Civil date-time values (Python naive `datetime`) -/

/-- A naive Python `datetime`: civil fields, no timezone. -/
structure DateTime where
  year : Nat
  month : Nat
  day : Nat
  hour : Nat
  minute : Nat
  second : Nat
  usec : Nat
deriving DecidableEq, Repr

/-- Gregorian leap-year test (`calendar.isleap`). -/
def isLeapYear (y : Nat) : Bool :=
  (y % 4 == 0 && y % 100 != 0) || y % 400 == 0

/-- Length of a month in the proleptic Gregorian calendar. -/
def daysInMonth (y m : Nat) : Nat :=
  if m == 2 then (if isLeapYear y then 29 else 28)
  else if m == 4 || m == 6 || m == 9 || m == 11 then 30
  else 31

/-- Days in the months strictly before month `m` of a common year. -/
def cumDaysBefore (m : Nat) : Nat :=
  match m with
  | 1 => 0 | 2 => 31 | 3 => 59 | 4 => 90 | 5 => 120 | 6 => 151
  | 7 => 181 | 8 => 212 | 9 => 243 | 10 => 273 | 11 => 304 | 12 => 334
  | _ => 365

/-- Rata die: day number of `(y, m, d)` with 0001-01-01 ↦ 1, as in
`datetime.date.toordinal`. -/
def rataDie (y m d : Nat) : Nat :=
  365 * (y - 1) + (y - 1) / 4 - (y - 1) / 100 + (y - 1) / 400
    + cumDaysBefore m + (if 2 < m && isLeapYear y then 1 else 0) + d

/-- `datetime.date.weekday`: Monday = 0 … Sunday = 6
(`date(1, 1, 1).weekday() == 0`). -/
def DateTime.weekday (t : DateTime) : Nat :=
  (rataDie t.year t.month t.day + 6) % 7

/-- The calendar date `(y, m, d)` of a datetime (`datetime.date()`). -/
def DateTime.date (t : DateTime) : Nat × Nat × Nat :=
  (t.year, t.month, t.day)

/-- Total microseconds since the epoch 0001-01-01T00:00:00.  This is an
order- and difference-isomorphism onto the naive `datetime` line: Python
compares naive datetimes and subtracts them into `timedelta`s exactly as
these numbers compare and subtract. -/
def DateTime.toMicros (t : DateTime) : Nat :=
  ((((rataDie t.year t.month t.day - 1) * 24 + t.hour) * 60 + t.minute) * 60
    + t.second) * 1000000 + t.usec

/-- `timedelta(minutes=n)` as microseconds. -/
def minutesToMicros (n : Nat) : Nat := n * 60000000

/-- Field bounds guaranteed for every datetime produced by `strptime`
(used to show the fixed-width `isoformat` rendering is injective). -/
def DateTime.InRange (t : DateTime) : Prop :=
  t.year < 10000 ∧ t.month < 100 ∧ t.day < 100 ∧ t.hour < 100 ∧
    t.minute < 100 ∧ t.second < 100 ∧ t.usec < 1000000

instance (t : DateTime) : Decidable t.InRange := by
  unfold DateTime.InRange; infer_instance

/-! ## Decimal rendering (`%02d`, `%04d`, `%06d`, `isoformat`, `strftime`) -/

/-- The decimal digit character for `n % 10`. -/
def digTable : Nat → Char
  | 0 => '0' | 1 => '1' | 2 => '2' | 3 => '3' | 4 => '4'
  | 5 => '5' | 6 => '6' | 7 => '7' | 8 => '8' | _ => '9'

/-- Digit character of `n % 10`. -/
def digc (n : Nat) : Char := digTable (n % 10)

/-- `%02d` for `n < 100` (all time fields of a valid datetime). -/
def dig2 (n : Nat) : List Char := [digc (n / 10), digc n]

/-- `%04d` for `n < 10000` (the year of a valid datetime). -/
def dig4 (n : Nat) : List Char := [digc (n / 1000), digc (n / 100), digc (n / 10), digc n]

/-- `%06d` for `n < 1000000` (microseconds). -/
def dig6 (n : Nat) : List Char :=
  [digc (n / 100000), digc (n / 10000), digc (n / 1000), digc (n / 100), digc (n / 10), digc n]

/-- `datetime.isoformat()`: `YYYY-MM-DDTHH:MM:SS` with a `.ffffff`
suffix exactly when the microsecond field is nonzero. -/
def isoformat (t : DateTime) : String :=
  String.mk (dig4 t.year ++ '-' :: dig2 t.month ++ '-' :: dig2 t.day ++
    'T' :: dig2 t.hour ++ ':' :: dig2 t.minute ++ ':' :: dig2 t.second ++
    (if t.usec == 0 then [] else '.' :: dig6 t.usec))

/-- English weekday names for `%A` (Monday = 0). -/
def weekdayName (w : Nat) : String :=
  match w with
  | 0 => "Monday" | 1 => "Tuesday" | 2 => "Wednesday" | 3 => "Thursday"
  | 4 => "Friday" | 5 => "Saturday" | _ => "Sunday"

/-- English month names for `%B`. -/
def monthName (m : Nat) : String :=
  match m with
  | 1 => "January" | 2 => "February" | 3 => "March" | 4 => "April"
  | 5 => "May" | 6 => "June" | 7 => "July" | 8 => "August"
  | 9 => "September" | 10 => "October" | 11 => "November" | _ => "December"

/-- `%I`: 12-hour clock, zero padded, 0 rendered as 12. -/
def hour12 (h : Nat) : Nat :=
  if h % 12 == 0 then 12 else h % 12

/-- `%p` for hour `h`. -/
def amPm (h : Nat) : String := if h < 12 then "AM" else "PM"

/-- `strftime("%A, %B %d at %I:%M %p")` — the `display` field of a matched
slot in `_find_overlap`. -/
def displayShort (t : DateTime) : String :=
  weekdayName t.weekday ++ ", " ++ monthName t.month ++ " " ++
    String.mk (dig2 t.day) ++ " at " ++ String.mk (dig2 (hour12 t.hour)) ++
    ":" ++ String.mk (dig2 t.minute) ++ " " ++ amPm t.hour

/-- `strftime("%A, %B %d, %Y at %I:%M %p")` — used in confirmation emails. -/
def displayLong (t : DateTime) : String :=
  weekdayName t.weekday ++ ", " ++ monthName t.month ++ " " ++
    String.mk (dig2 t.day) ++ ", " ++ String.mk (dig4 t.year) ++ " at " ++
    String.mk (dig2 (hour12 t.hour)) ++ ":" ++ String.mk (dig2 t.minute) ++
    " " ++ amPm t.hour

/-! ## `strptime` (the formats used by `_parse_dt` and the candidate parsers)

CPython's `strptime` compiles a format into a regex: `%Y` is exactly four
digits; `%m`/`%d`/`%H`/`%M`/`%S` are one or two digits constrained by
alternations (`1[0-2]|0[1-9]|[1-9]` for `%m`, …); `%f` is one to six
digits.  In the five formats `_parse_dt` tries, every numeric field is
followed by a non-digit delimiter or the end of the string, so the regex's
ordered alternation is equivalent to: take two digits when they form a
valid two-digit alternative, otherwise fall back to one valid digit —
backtracking can never rescue a failed parse because the character a
shorter numeric match leaves behind is a digit, which no delimiter (or end
of input) matches.  `datetime`'s constructor additionally requires
`MINYEAR <= year`, `day <= daysInMonth` and `second <= 59`; a constructor
`ValueError` makes `strptime` fail just like a regex mismatch. -/

/-- Value of a decimal digit character (regex `\d`, ASCII fragment —
Python's `\d` additionally accepts non-ASCII decimal digits). -/
def pDigit (c : Char) : Option Nat :=
  if 48 ≤ c.toNat ∧ c.toNat ≤ 57 then some (c.toNat - 48) else none

/-- `%Y`: exactly four digits. -/
def pYear : List Char → Option (Nat × List Char)
  | a :: b :: c :: d :: rest =>
    match pDigit a, pDigit b, pDigit c, pDigit d with
    | some x, some y, some z, some w => some (1000 * x + 100 * y + 10 * z + w, rest)
    | _, _, _, _ => none
  | _ => none

/-- A one-or-two-digit field: two digits are taken when their value lies in
`[lo2, hi2]`, otherwise a single digit in `[lo1, hi1]`. -/
def pNum2 (lo2 hi2 lo1 hi1 : Nat) : List Char → Option (Nat × List Char)
  | a :: b :: rest =>
    match pDigit a, pDigit b with
    | some x, some y =>
      let v := 10 * x + y
      if lo2 ≤ v ∧ v ≤ hi2 then some (v, rest)
      else if lo1 ≤ x ∧ x ≤ hi1 then some (x, b :: rest)
      else none
    | some x, none =>
      if lo1 ≤ x ∧ x ≤ hi1 then some (x, b :: rest) else none
    | none, _ => none
  | [a] =>
    match pDigit a with
    | some x => if lo1 ≤ x ∧ x ≤ hi1 then some (x, []) else none
    | none => none
  | [] => none

/-- Up to `n` leading digits as a list of digit values. -/
def grabDigits : Nat → List Char → List Nat × List Char
  | 0, l => ([], l)
  | _ + 1, [] => ([], [])
  | n + 1, c :: rest =>
    match pDigit c with
    | some d =>
      let (ds, r) := grabDigits n rest
      (d :: ds, r)
    | none => ([], c :: rest)

/-- `%f`: one to six digits, scaled to microseconds (`.5` means 500000). -/
def pMicros (l : List Char) : Option (Nat × List Char) :=
  let (ds, r) := grabDigits 6 l
  if ds.isEmpty then none
  else some (ds.foldl (fun acc d => acc * 10 + d) 0 * 10 ^ (6 - ds.length), r)

/-- A literal character of the format (CPython compiles the format's
regex with `re.IGNORECASE`, so the literal `T` also matches `t`). -/
def pLit (c : Char) : List Char → Option (List Char)
  | x :: rest => if x.toLower = c.toLower then some rest else none
  | [] => none

/-- The `datetime` constructor's residual validation (`MINYEAR`, day of
month, no leap seconds). -/
def mkDateTime? (y mo d h mi s us : Nat) : Option DateTime :=
  if 1 ≤ y ∧ d ≤ daysInMonth y mo ∧ s ≤ 59 then some ⟨y, mo, d, h, mi, s, us⟩ else none

/-- `strptime(s, "%Y-%m-%d{sep}%H:%M")`. -/
def strptimeYmdHM (sep : Char) (l : List Char) : Option DateTime :=
  (pYear l).bind fun (y, l) =>
  (pLit '-' l).bind fun l =>
  (pNum2 1 12 1 9 l).bind fun (mo, l) =>
  (pLit '-' l).bind fun l =>
  (pNum2 1 31 1 9 l).bind fun (d, l) =>
  (pLit sep l).bind fun l =>
  (pNum2 0 23 0 9 l).bind fun (h, l) =>
  (pLit ':' l).bind fun l =>
  (pNum2 0 59 0 9 l).bind fun (mi, l) =>
  if l.isEmpty then mkDateTime? y mo d h mi 0 0 else none

/-- `strptime(s, "%Y-%m-%d{sep}%H:%M:%S")`. -/
def strptimeYmdHMS (sep : Char) (l : List Char) : Option DateTime :=
  (pYear l).bind fun (y, l) =>
  (pLit '-' l).bind fun l =>
  (pNum2 1 12 1 9 l).bind fun (mo, l) =>
  (pLit '-' l).bind fun l =>
  (pNum2 1 31 1 9 l).bind fun (d, l) =>
  (pLit sep l).bind fun l =>
  (pNum2 0 23 0 9 l).bind fun (h, l) =>
  (pLit ':' l).bind fun l =>
  (pNum2 0 59 0 9 l).bind fun (mi, l) =>
  (pLit ':' l).bind fun l =>
  (pNum2 0 61 0 9 l).bind fun (s, l) =>
  if l.isEmpty then mkDateTime? y mo d h mi s 0 else none

/-- `strptime(s, "%Y-%m-%dT%H:%M:%S.%f")`. -/
def strptimeYmdHMSf (l : List Char) : Option DateTime :=
  (pYear l).bind fun (y, l) =>
  (pLit '-' l).bind fun l =>
  (pNum2 1 12 1 9 l).bind fun (mo, l) =>
  (pLit '-' l).bind fun l =>
  (pNum2 1 31 1 9 l).bind fun (d, l) =>
  (pLit 'T' l).bind fun l =>
  (pNum2 0 23 0 9 l).bind fun (h, l) =>
  (pLit ':' l).bind fun l =>
  (pNum2 0 59 0 9 l).bind fun (mi, l) =>
  (pLit ':' l).bind fun l =>
  (pNum2 0 61 0 9 l).bind fun (s, l) =>
  (pLit '.' l).bind fun l =>
  (pMicros l).bind fun (us, l) =>
  if l.isEmpty then mkDateTime? y mo d h mi s us else none

/-- `str.strip()`: drop leading and trailing whitespace. -/
def trimList (l : List Char) : List Char :=
  ((l.dropWhile Char.isWhitespace).reverse.dropWhile Char.isWhitespace).reverse

/-- `re.sub(r'[+-]\d{2}:\d{2}$', '', ·)`: drop a trailing numeric UTC
offset. -/
def stripTzSuffix (l : List Char) : List Char :=
  match l.reverse with
  | m2 :: m1 :: ':' :: h2 :: h1 :: sgn :: rest =>
    if (sgn = '+' ∨ sgn = '-') ∧ m2.isDigit ∧ m1.isDigit ∧ h2.isDigit ∧ h1.isDigit then
      rest.reverse
    else l
  | _ => l

/-- `str.replace("Z", "")`: every capital `Z` is removed. -/
def removeZ (l : List Char) : List Char := l.filter (· ≠ 'Z')

/-- `SchedulerAgent._parse_dt`: strip whitespace, drop a trailing UTC
offset, remove `Z`, then try the five formats in order.  `none` models the
`ValueError` raised when no format matches. -/
def parseDT (s : String) : Option DateTime :=
  let l := removeZ (stripTzSuffix (trimList s.toList))
  (strptimeYmdHMSf l) <|> (strptimeYmdHMS 'T' l) <|> (strptimeYmdHM 'T' l) <|>
    (strptimeYmdHMS ' ' l) <|> (strptimeYmdHM ' ' l)

/-! ## JSON values (output of `json.loads` on the extraction reply) -/

/-- A JSON value.  Numbers are modelled as integers (the extraction schema
only ever carries strings, lists and objects where the core looks). -/
inductive JsonV where
  | null : JsonV
  | boolv : Bool → JsonV
  | num : Int → JsonV
  | str : String → JsonV
  | arr : List JsonV → JsonV
  | obj : List (String × JsonV) → JsonV
deriving BEq, Repr

/-- Python `==` between a JSON value and a string literal: equal exactly
when the value is that string (a non-string never equals a string). -/
def isStrEq (v : JsonV) (s : String) : Bool :=
  match v with
  | .str t => t == s
  | _ => false

/-- Python truthiness of a JSON value (`if not x`). -/
def truthy : JsonV → Bool
  | .null => false
  | .boolv b => b
  | .num n => n != 0
  | .str s => s ≠ ""
  | .arr l => !l.isEmpty
  | .obj l => !l.isEmpty

/-- `dict.get(k, default)` on an object (objects decoded by `json.loads`
have unique keys). -/
def jgetD (v : JsonV) (k : String) (dflt : JsonV) : JsonV :=
  match v with
  | .obj m => (m.lookup k).getD dflt
  | _ => dflt

/-- Python iteration over the extracted `slots` value (`for cs in slots`).
Iterating a string yields its characters as one-character strings,
iterating a dict yields its keys; numbers, booleans and `None` raise
`TypeError` (`.error`). -/
def jsonElems : JsonV → Except Unit (List JsonV)
  | .arr l => .ok l
  | .str s => .ok (s.toList.map fun c => .str (String.mk [c]))
  | .obj m => .ok (m.map fun p => .str p.1)
  | .null | .boolv _ | .num _ => .error ()

/-! ## Candidate slot parsing (`_parse_candidate_slot_start` / `…_end`) -/

/-- `SchedulerAgent._parse_candidate_slot_start` on one element of the
extracted slot list.  `none` models any raised exception (caught by the
caller's `try`): a non-dict element (`.get` raises `AttributeError`), a
falsy or non-string `date` (a stringified number or container can never
match `%Y-%m-%d…`), a non-string `start_time` (slicing raises `TypeError`)
or a `strptime` failure.  A missing `start_time` defaults to `"00:00"`. -/
def parseCandidateSlotStart (cs : JsonV) : Option DateTime :=
  match cs with
  | .obj m =>
    match (m.lookup "date").getD (.str "") with
    | .str ds =>
      if ds = "" then none
      else
        match (m.lookup "start_time").getD (.str "00:00") with
        | .str ts => strptimeYmdHM 'T' (ds.toList ++ 'T' :: ts.toList.take 5)
        | _ => none
    | _ => none
  | _ => none

/-- `SchedulerAgent._parse_candidate_slot_end`, as the instant (total
microseconds) it denotes: the stated `end_time` is used only when it
parses against the slot's `date` and is strictly later than the start;
every other case — absent, falsy, non-string, unparseable, equal to or
before the start — silently falls back to `start + duration`. -/
def parseCandidateSlotEnd (cs : JsonV) (durationMinutes : Nat) : Option Nat :=
  match parseCandidateSlotStart cs with
  | none => none
  | some st =>
    let fallback := st.toMicros + minutesToMicros durationMinutes
    match cs with
    | .obj m =>
      let endV := (m.lookup "end_time").getD (.str "")
      if !truthy endV then some fallback
      else
        match endV with
        | .str es =>
          match
            (match m.lookup "date" with
             | some (.str ds) => strptimeYmdHM 'T' (ds.toList ++ 'T' :: es.toList.take 5)
             | _ => none) with
          | some en => if st.toMicros < en.toMicros then some en.toMicros else some fallback
          | none => some fallback
        | _ => some fallback
    | _ => none

/-- The stated end instant of a candidate slot: the datetime the `try`
block of `_parse_candidate_slot_end` obtains, i.e. only when `end_time`
is present, truthy and a string, and `strptime` accepts
`f"{cs['date']}T{end_time[:5]}"`.  (Whether it is honoured additionally
requires it to be strictly later than the start.) -/
def statedEndDT (cs : JsonV) : Option DateTime :=
  match cs with
  | .obj m =>
    match (m.lookup "end_time").getD (.str "") with
    | .str es =>
      if es = "" then none
      else
        match m.lookup "date" with
        | some (.str ds) => strptimeYmdHM 'T' (ds.toList ++ 'T' :: es.toList.take 5)
        | _ => none
    | _ => none
  | _ => none

/-! ## The slot matcher (`SchedulerAgent._find_overlap`) -/

/-- A recruiter slot dict as produced by the calendar adapter; `stop`
embeds the dict's `"end"` key. -/
structure RSlot where
  start : String
  stop : String
deriving DecidableEq, Repr

/-- One element of `_find_overlap`'s result list; `stop` embeds the
`"end"` key. -/
structure OutSlot where
  start : String
  stop : String
  display : String
deriving DecidableEq, Repr

/-- The matching decision for one (recruiter, candidate) pair — the
`if`/`elif` tier chain of `_find_overlap` (`csEnd` is the instant of the
candidate slot's end). -/
def fires (rsStart rsEnd csStart : DateTime) (csEnd : Nat) (durationMinutes : Nat) : Bool :=
  if rsStart.date = csStart.date ∧ rsStart.hour = csStart.hour then true
  else if rsStart.weekday = csStart.weekday ∧ rsStart.hour = csStart.hour then true
  else if rsStart.date = csStart.date ∧ csStart.hour = 0 then true
  else
    min (rsEnd.toMicros : Int) (csEnd : Int) - max (rsStart.toMicros : Int) (csStart.toMicros : Int)
      ≥ (minutesToMicros durationMinutes : Int)

/-- Whether one candidate slot matches one parsed recruiter slot: parse
the candidate's start and end (an exception skips the pair), then run the
tier chain. -/
def matchPair (rsStart rsEnd : DateTime) (durationMinutes : Nat) (cs : JsonV) : Bool :=
  match parseCandidateSlotStart cs, parseCandidateSlotEnd cs durationMinutes with
  | some cst, some cen => fires rsStart rsEnd cst cen durationMinutes
  | _, _ => false

/-- The dict appended for a matched recruiter slot. -/
def renderSlot (rsStart rsEnd : DateTime) : OutSlot :=
  ⟨isoformat rsStart, isoformat rsEnd, displayShort rsStart⟩

/-- The `overlapping` list before deduplication: recruiter slots outer,
candidate slots inner; a recruiter slot whose `start` or `end` fails to
parse is skipped. -/
def overlapPre (rss : List RSlot) (css : List JsonV) (durationMinutes : Nat) : List OutSlot :=
  rss.flatMap fun rs =>
    match parseDT rs.start, parseDT rs.stop with
    | some s, some e =>
      css.filterMap fun cs =>
        if matchPair s e durationMinutes cs then some (renderSlot s e) else none
    | _, _ => []

/-- The final dedup loop of `_find_overlap`: drop entries whose `"start"`
string was already seen, first occurrence kept, order preserved. -/
def dedupGo (seen : List String) : List OutSlot → List OutSlot
  | [] => []
  | x :: xs =>
    if x.start ∈ seen then dedupGo seen xs else x :: dedupGo (x.start :: seen) xs

/-- `SchedulerAgent._find_overlap`. -/
def findOverlap (rss : List RSlot) (css : List JsonV) (durationMinutes : Nat) : List OutSlot :=
  dedupGo [] (overlapPre rss css durationMinutes)

/-! ## Reference matcher, written from the specification's words (§4.2)

These definitions follow the spec sentence by sentence, to be compared
with `findOverlap` above: four tiers applied in order with the first
firing one accepted, output the matched offered slots deduplicated by
exact start instant in first-seen order. -/

/-- Spec tier 1, "exact match": same calendar date and same starting hour. -/
def specTier1 (o r : DateTime) : Prop := o.date = r.date ∧ o.hour = r.hour

/-- Spec tier 2, "weekday+hour match": same day-of-week and same starting
hour. -/
def specTier2 (o r : DateTime) : Prop := o.weekday = r.weekday ∧ o.hour = r.hour

/-- Spec tier 3, "date-only match": same calendar date with the
respondent's hour equal to the midnight sentinel. -/
def specTier3 (o r : DateTime) : Prop := o.date = r.date ∧ r.hour = 0

/-- Spec tier 4, "interval-overlap match": the intersection of the two
time ranges is at least `duration` long (equality counts). -/
def specTier4 (oS oE rS : DateTime) (rE durationMinutes : Nat) : Prop :=
  min (oE.toMicros : Int) (rE : Int) - max (oS.toMicros : Int) (rS.toMicros : Int)
    ≥ (minutesToMicros durationMinutes : Int)

instance (o r : DateTime) : Decidable (specTier1 o r) := by
  unfold specTier1; infer_instance

instance (o r : DateTime) : Decidable (specTier2 o r) := by
  unfold specTier2; infer_instance

instance (o r : DateTime) : Decidable (specTier3 o r) := by
  unfold specTier3; infer_instance

instance (oS oE rS : DateTime) (rE d : Nat) : Decidable (specTier4 oS oE rS rE d) := by
  unfold specTier4; infer_instance

/-- "Apply in order and accept the first that fires." -/
def specAccepts (oS oE rS : DateTime) (rE durationMinutes : Nat) : Bool :=
  if specTier1 oS rS then true
  else if specTier2 oS rS then true
  else if specTier3 oS rS then true
  else specTier4 oS oE rS rE durationMinutes

/-- One (offered, respondent) pair of the reference algorithm: a
respondent entry that does not denote a structured slot matches nothing. -/
def specPairFires (oS oE : DateTime) (durationMinutes : Nat) (cs : JsonV) : Bool :=
  match parseCandidateSlotStart cs, parseCandidateSlotEnd cs durationMinutes with
  | some rS, some rE => specAccepts oS oE rS rE durationMinutes
  | _, _ => false

/-- Deduplication "by exact start instant, preserving first-seen order". -/
def specDedup (seen : List DateTime) : List (DateTime × DateTime) → List (DateTime × DateTime)
  | [] => []
  | p :: ps =>
    if p.1 ∈ seen then specDedup seen ps else p :: specDedup (p.1 :: seen) ps

/-- The matched offered slots before deduplication: offered slots iterated
in order, kept when some respondent slot fires a tier. -/
def specMatchedPre (rss : List RSlot) (css : List JsonV) (durationMinutes : Nat) :
    List (DateTime × DateTime) :=
  rss.filterMap fun rs =>
    match parseDT rs.start, parseDT rs.stop with
    | some s, some e =>
      if css.any (specPairFires s e durationMinutes) then some (s, e) else none
    | _, _ => none

/-- The reference algorithm of the spec: matched offered slots,
deduplicated by exact start instant, first-seen order. -/
def specMatcher (rss : List RSlot) (css : List JsonV) (durationMinutes : Nat) :
    List (DateTime × DateTime) :=
  specDedup [] (specMatchedPre rss css durationMinutes)

/-! ## The negotiation state machine (`SchedulerAgent`)

The `InterviewRequest` dataclass is mutated in place by the Python code;
the embedding threads it explicitly and re-inserts the current state into
the request map on every path, including a propagating exception, because
the Python dict keeps referencing the mutated object.  External
collaborators are the oracle fields of `Env`; `createEvent` returning
`.error` models the adapter raising an exception into the core. -/

/-- An outbound email (`email.send(to, subject, body)`); `recipient`
embeds the `to` argument. -/
structure Mail where
  recipient : String
  subject : String
  body : String
deriving DecidableEq, Repr

/-- A `calendar.create_event` call; `stop` embeds the `end` argument. -/
structure EventCall where
  title : String
  start : String
  stop : String
  attendees : List String
  description : String
deriving DecidableEq, Repr

/-- A `calendar.get_available_slots` call:
`(email, duration_minutes, days_ahead, exclude_slots)`. -/
structure CalQuery where
  email : String
  durationMinutes : Nat
  daysAhead : Nat
  excludeSlots : List RSlot
deriving DecidableEq, Repr

/-- The result dict of a successful `create_event`: the core only reads
`event.get("meet_link")`.  The adapter's soft-failure dict (it catches its
own exceptions and returns `{"error": …}`) has no meet link either, so it
is `meetLink := none` here. -/
structure EventInfo where
  meetLink : Option String
deriving DecidableEq, Repr

/-- Side effects of one step, in call order within each list. -/
structure Trace where
  emails : List Mail
  events : List EventCall
  queries : List CalQuery
deriving DecidableEq, Repr

/-- The empty trace. -/
def Trace.nil : Trace := ⟨[], [], []⟩

/-- Concatenation of traces. -/
def Trace.app (a b : Trace) : Trace :=
  ⟨a.emails ++ b.emails, a.events ++ b.events, a.queries ++ b.queries⟩

/-- `_extract_availability_with_llm`'s interaction with its collaborators:
`parsed` is the result of `json.loads` on the cleaned LLM response
(`none` = `JSONDecodeError`), `fallbackParsed` the result of re-parsing
the first `{.*}` match of the raw response, and `raw` the raw response
(echoed in the fallback payload). -/
structure ExtractOutcome where
  parsed : Option JsonV
  fallbackParsed : Option JsonV
  raw : String

/-- Oracles for the external collaborators.  `extract` is keyed by the
reply body and the offered slots (the two inputs of the extraction
prompt); `availableSlots` by the full calendar query. -/
structure Env where
  extract : String → List RSlot → ExtractOutcome
  availableSlots : CalQuery → List RSlot
  createEvent : EventCall → Except Unit EventInfo

/-- The `InterviewRequest` dataclass. -/
structure Request where
  recruiterEmail : String
  candidateEmail : String
  jobTitle : String
  durationMinutes : Nat
  conversationHistory : List (String × String)
  recruiterSlots : List RSlot
  candidateSlots : JsonV
  confirmedSlot : Option OutSlot
  status : String
deriving Repr

/-- The `active_requests` dict, as an association list with assignment
semantics. -/
def mapInsert : List (String × Request) → String → Request → List (String × Request)
  | [], k, v => [(k, v)]
  | (k', v') :: rest, k, v =>
    if k' = k then (k, v) :: rest else (k', v') :: mapInsert rest k v

/-- The dict returned by each exit of `handle_email_reply` and its
helpers, keyed by its `"status"` field. -/
inductive Outcome where
  | errorUnknown    -- "error" / "Unknown request ID"
  | confirmedBooked (slot : OutSlot)  -- "confirmed"
  | cancelledO      -- "cancelled"
  | retrySent       -- "awaiting_candidate" / "Sent alternative times"
  | escalated       -- "escalated"
  | awaitingResponse  -- "awaiting_response"
  | confirmErr      -- "error" / "No slot to confirm"
deriving DecidableEq, Repr

/-- `chr(10).join(…)`. -/
def joinSep (sep : String) : List String → String
  | [] => ""
  | [x] => x
  | x :: xs => x ++ sep ++ joinSep sep xs

/-- One line of the offer email: human-readable when the slot's start
parses, raw start/end otherwise. -/
def availabilityLine (durationMinutes : Nat) (s : RSlot) : String :=
  match parseDT s.start with
  | some dt => "  • " ++ displayShort dt ++ " (" ++ toString durationMinutes ++ " mins)"
  | none => "  • " ++ s.start ++ " – " ++ s.stop

/-- Body of `_send_availability_request` (initial offer and retry offer). -/
def availabilityBody (requestId : String) (req : Request) (slots : List RSlot)
    (retry : Bool) : String :=
  "Hi,\n\n" ++
  (if retry then
    "Thank you for your response! Unfortunately those times don't work. Here are some additional options:"
   else
    "We'd love to schedule your interview for the " ++ req.jobTitle ++ " position.") ++
  "\n\nPlease reply with which time works best for you, or suggest an alternative:\n\n" ++
  joinSep "\n" ((slots.take 6).map (availabilityLine req.durationMinutes)) ++
  "\n\nSimply reply to this email with your preferred time — our scheduling assistant will take care of the rest!" ++
  "\n\nBest regards,\nInterview Scheduling Assistant\n\n" ++
  "──────────────────────────────\n[Request ID: " ++ requestId ++
  "]\n──────────────────────────────"

/-- The mail sent by `_send_availability_request`. -/
def availabilityMail (requestId : String) (req : Request) (slots : List RSlot)
    (retry : Bool) : Mail :=
  ⟨req.candidateEmail, "Interview Scheduling – " ++ req.jobTitle,
    availabilityBody requestId req slots retry⟩

/-- `slot_display` of `_send_confirmation`: long `strftime` form when the
slot's timestamps parse, the slot's `display` field otherwise. -/
def confirmationSlotDisplay (slot : OutSlot) : String :=
  match parseDT slot.start, parseDT slot.stop with
  | some s, some _ => displayLong s
  | _, _ => slot.display

/-- The `meet_link` fragment of the confirmation bodies. -/
def meetLinkPart (ev : EventInfo) : String :=
  match ev.meetLink with
  | some m => if m ≠ "" then "\nGoogle Meet Link: " ++ m else ""
  | none => ""

/-- The two mails of `_send_confirmation` (candidate first, recruiter
second). -/
def confirmationMails (req : Request) (slot : OutSlot) (ev : EventInfo) : List Mail :=
  let slotDisplay := confirmationSlotDisplay slot
  let durationDisplay := toString req.durationMinutes ++ " minutes"
  let ml := meetLinkPart ev
  [⟨req.candidateEmail, "✅ Interview Confirmed – " ++ req.jobTitle,
    "Hi,\n\nGreat news! Your interview has been successfully scheduled. 🎉\n\n" ++
    "━━━━━━━━━━━━━━━━━━━━━━━━━━━━\n  INTERVIEW CONFIRMED\n━━━━━━━━━━━━━━━━━━━━━━━━━━━━\n" ++
    "  Role     : " ++ req.jobTitle ++ "\n  Date     : " ++ slotDisplay ++
    "\n  Duration : " ++ durationDisplay ++ ml ++
    "\n━━━━━━━━━━━━━━━━━━━━━━━━━━━━\n\n" ++
    "A calendar invite has been sent to your email. Please accept it to confirm attendance.\n\n" ++
    "Tips for your interview:\n  • Join 5 minutes early\n  • Test your audio/video beforehand\n  • Have your resume handy\n\n" ++
    "Best of luck! We look forward to speaking with you.\n\nBest regards,\nInterview Scheduling Assistant"⟩,
   ⟨req.recruiterEmail, "✅ Interview Booked – " ++ req.jobTitle ++ " | " ++ slotDisplay,
    "Hi,\n\nThe interview has been successfully scheduled with the candidate.\n\n" ++
    "━━━━━━━━━━━━━━━━━━━━━━━━━━━━\n  INTERVIEW BOOKED\n━━━━━━━━━━━━━━━━━━━━━━━━━━━━\n" ++
    "  Role      : " ++ req.jobTitle ++ "\n  Candidate : " ++ req.candidateEmail ++
    "\n  Date      : " ++ slotDisplay ++ "\n  Duration  : " ++ durationDisplay ++ ml ++
    "\n━━━━━━━━━━━━━━━━━━━━━━━━━━━━\n\n" ++
    "A calendar invite has been added to your calendar automatically.\n\nBest regards,\nInterview Scheduling Assistant"⟩]

/-- The mail of `_send_cancellation_notice`. -/
def cancellationMail (req : Request) : Mail :=
  ⟨req.recruiterEmail, "Interview Declined – " ++ req.jobTitle,
    "Hi,\n\nThe candidate has declined the interview request.\n\n" ++
    "  Candidate : " ++ req.candidateEmail ++ "\n  Position  : " ++ req.jobTitle ++
    "\n\nPlease reach out directly if you'd like to follow up.\n\nBest regards,\nInterview Scheduling Assistant"⟩

/-- The mail of `_escalate_to_recruiter`. -/
def escalationMail (req : Request) : Mail :=
  ⟨req.recruiterEmail, "⚠️ Manual Scheduling Required – " ++ req.jobTitle,
    "Hi,\n\nThe automated scheduling agent was unable to find a mutually available time.\n\n" ++
    "  Candidate : " ++ req.candidateEmail ++ "\n  Position  : " ++ req.jobTitle ++
    "\n\nPlease reach out to the candidate directly to schedule the interview.\n\nBest regards,\nInterview Scheduling Assistant"⟩

/-- `SchedulerAgent._handle_no_overlap`: fetch a further batch with a
21-day lookahead excluding the current `recruiter_slots`; extend and send
a retry offer if non-empty (status untouched), otherwise escalate. -/
def handleNoOverlap (env : Env) (requestId : String) (req : Request) :
    Outcome × Request × Trace :=
  let q : CalQuery := ⟨req.recruiterEmail, req.durationMinutes, 21, req.recruiterSlots⟩
  let newSlots := env.availableSlots q
  if !newSlots.isEmpty then
    let req' := {req with recruiterSlots := req.recruiterSlots ++ newSlots}
    (.retrySent, req', ⟨[availabilityMail requestId req' newSlots true], [], [q]⟩)
  else
    let req' := {req with status := "needs_human"}
    (.escalated, req', ⟨[escalationMail req'], [], [q]⟩)

/-- `SchedulerAgent._process_candidate_availability`.  Note the mutation
order of the source: `candidate_slots` is stored first, `confirmed_slot`
is set before `create_event` is called, `status` only after it returns;
a raising `create_event` therefore propagates (`.error`) with
`confirmed_slot` already set and `status` unchanged. -/
def processCandidateAvailability (env : Env) (requestId : String) (req : Request)
    (slotsV : JsonV) : Except Unit Outcome × Request × Trace :=
  let req1 := {req with candidateSlots := slotsV}
  if !truthy slotsV then
    let (o, r, t) := handleNoOverlap env requestId req1
    (.ok o, r, t)
  else
    match jsonElems slotsV with
    | .error _ => (.error (), req1, Trace.nil)  -- `for cs in candidate_slots` raised
    | .ok css =>
      match findOverlap req1.recruiterSlots css req1.durationMinutes with
      | [] =>
        let (o, r, t) := handleNoOverlap env requestId req1
        (.ok o, r, t)
      | best :: _ =>
        let req2 := {req1 with confirmedSlot := some best}
        let call : EventCall := ⟨"Interview: " ++ req2.jobTitle, best.start, best.stop,
          [req2.recruiterEmail, req2.candidateEmail],
          "Interview for " ++ req2.jobTitle ++ " position.\nScheduled by Interview Scheduling Agent."⟩
        match env.createEvent call with
        | .error _ => (.error (), req2, ⟨[], [call], []⟩)
        | .ok ev =>
          let req3 := {req2 with status := "confirmed"}
          (.ok (.confirmedBooked best), req3, ⟨confirmationMails req3 best ev, [call], []⟩)

/-- `SchedulerAgent._confirm_booking`. -/
def confirmBooking (env : Env) (req : Request) : Except Unit Outcome × Request × Trace :=
  match req.confirmedSlot with
  | some slot =>
    let call : EventCall := ⟨"Interview: " ++ req.jobTitle, slot.start, slot.stop,
      [req.recruiterEmail, req.candidateEmail], ""⟩
    match env.createEvent call with
    | .error _ => (.error (), req, ⟨[], [call], []⟩)
    | .ok ev =>
      let req' := {req with status := "confirmed"}
      (.ok (.confirmedBooked slot), req', ⟨confirmationMails req' slot ev, [call], []⟩)
  | none => (.ok .confirmErr, req, Trace.nil)

/-- `SchedulerAgent._extract_availability_with_llm` after the LLM call:
the parsed JSON if `json.loads` succeeds on the cleaned response, else the
re-parsed `{.*}` match, else the `unclear`/empty-slots fallback object. -/
def extractAvailability (env : Env) (emailBody : String) (req : Request) : JsonV :=
  let o := env.extract emailBody req.recruiterSlots
  match o.parsed with
  | some v => v
  | none =>
    match o.fallbackParsed with
    | some v => v
    | none => .obj [("action", .str "unclear"), ("slots", .arr []), ("message", .str o.raw)]

/-- `SchedulerAgent.handle_email_reply`.  There is no status guard of any
kind: the dispatch runs whatever the current `status` is.  `.error` models
an uncaught exception propagating to the caller (`extracted.get` on a
non-dict, `extracted["action"]`/`extracted["slots"]` on a dict missing
the key, or a raising collaborator further down); the request map still
holds the partially mutated request in that case. -/
def handleEmailReply (env : Env) (m : List (String × Request))
    (requestId sender emailBody : String) :
    Except Unit Outcome × List (String × Request) × Trace :=
  match List.lookup requestId m with
  | none => (.ok .errorUnknown, m, Trace.nil)
  | some req =>
    let req1 := {req with conversationHistory := req.conversationHistory ++ [(sender, emailBody)]}
    let extracted := extractAvailability env emailBody req1
    match extracted with
    | .obj fields =>
      let step : Except Unit Outcome × Request × Trace :=
        match fields.lookup "action" with
        | none => (.error (), req1, Trace.nil)  -- KeyError: extracted["action"]
        | some act =>
          if isStrEq act "provide_availability" then
            match fields.lookup "slots" with
            | none => (.error (), req1, Trace.nil)  -- KeyError: extracted["slots"]
            | some sl => processCandidateAvailability env requestId req1 sl
          else if isStrEq act "confirm" then
            confirmBooking env req1
          else if isStrEq act "decline" then
            let req2 := {req1 with status := "cancelled"}
            (.ok .cancelledO, req2, ⟨[cancellationMail req2], [], []⟩)
          else if isStrEq act "request_other_times" then
            let (o, r, t) := handleNoOverlap env requestId req1
            (.ok o, r, t)
          else
            match fields.lookup "slots" with
            | some sl =>
              if truthy sl then processCandidateAvailability env requestId req1 sl
              else (.ok .awaitingResponse, req1, Trace.nil)
            | none => (.ok .awaitingResponse, req1, Trace.nil)
      (step.1, mapInsert m requestId step.2.1, step.2.2)
    | _ => (.error (), mapInsert m requestId req1, Trace.nil)  -- extracted.get on a non-dict

/-- `candidate_email.split('@')[0]`: the characters before the first
`@` (the whole string when there is none). -/
def localPart (s : String) : String := String.mk (s.toList.takeWhile fun c => c ≠ '@')

/-- The correlation token minted by `initiate_scheduling`:
`req_<timestamp>_<candidate local part>`. -/
def mkRequestId (ts candidateEmail : String) : String :=
  "req_" ++ ts ++ "_" ++ localPart candidateEmail

/-- `SchedulerAgent.initiate_scheduling` (`ts` is the
`now().strftime('%Y%m%d%H%M%S')` timestamp).  It never raises: with an
empty availability batch it still sends the offer (listing no slots) and
moves the request to `awaiting_candidate`. -/
def initiateScheduling (env : Env) (m : List (String × Request))
    (ts recruiterEmail candidateEmail jobTitle : String) (durationMinutes : Nat) :
    String × List (String × Request) × Trace :=
  let requestId := mkRequestId ts candidateEmail
  let q : CalQuery := ⟨recruiterEmail, durationMinutes, 14, []⟩
  let slots := env.availableSlots q
  let req1 : Request :=
    ⟨recruiterEmail, candidateEmail, jobTitle, durationMinutes, [], slots, .arr [], none,
      "awaiting_candidate"⟩
  (requestId, mapInsert m requestId req1,
    ⟨[availabilityMail requestId req1 slots false], [], [q]⟩)

/-! ## Correlation-token extraction (`EmailClient._extract_request_id`)

The three patterns are specialised to executable scanners.  `\w` is
modelled as ASCII `[A-Za-z0-9_]` (Python's `\w` additionally covers
non-ASCII word characters; the tokens at issue are built from email local
parts and digit timestamps).  In all three patterns every greedy
sub-match is followed by a character it can never consume, so maximal
munch plus the explicit trailing-hyphen adjustment for the second
pattern's closing `\b` is exactly the regex's backtracking behaviour. -/

/-- Case-insensitive character comparison (`re.IGNORECASE`). -/
def ciEq (a b : Char) : Bool := a.toLower == b.toLower

/-- Regex `\w` (ASCII fragment). -/
def isWordChar (c : Char) : Bool := c.isAlphanum || c == '_'

/-- The character class `[\w\-]`. -/
def isWordOrHyphen (c : Char) : Bool := isWordChar c || c == '-'

/-- Match a literal pattern case-insensitively, returning the consumed
input characters (the text `group()` would report) and the rest. -/
def matchLitCi : List Char → List Char → Option (List Char × List Char)
  | [], l => some ([], l)
  | p :: ps, c :: cs =>
    if ciEq p c then (matchLitCi ps cs).map fun pr => (c :: pr.1, pr.2) else none
  | _ :: _, [] => none

/-- `\s+` (maximal munch; the following literal is never whitespace). -/
def skipWs1 : List Char → Option (List Char)
  | c :: cs => if c.isWhitespace then some (cs.dropWhile Char.isWhitespace) else none
  | [] => none

/-- Attempt pattern 1, `\[Request\s+ID:\s*(req_[\w\-]+)\]` with
`re.IGNORECASE`, at the current position. -/
def matchTaggedAt (l : List Char) : Option String :=
  (matchLitCi "[Request".toList l).bind fun pr =>
  (skipWs1 pr.2).bind fun l =>
  (matchLitCi "ID:".toList l).bind fun pr =>
  let l := pr.2.dropWhile Char.isWhitespace
  (matchLitCi "req_".toList l).bind fun pr =>
  let run := pr.2.takeWhile isWordOrHyphen
  if run.isEmpty then none
  else
    match pr.2.dropWhile isWordOrHyphen with
    | ']' :: _ => some (String.mk (pr.1 ++ run))
    | _ => none

/-- `re.search` for pattern 1: leftmost position where it matches. -/
def searchTagged : List Char → Option String
  | [] => none
  | c :: cs =>
    match matchTaggedAt (c :: cs) with
    | some s => some s
    | none => searchTagged cs

/-- Match a literal pattern case-sensitively. -/
def matchLit : List Char → List Char → Option (List Char)
  | [], l => some l
  | p :: ps, c :: cs => if p == c then matchLit ps cs else none
  | _ :: _, [] => none

/-- Strip trailing hyphens: the longest prefix of a `[\w\-]+` run whose
last character satisfies the closing `\b`. -/
def stripTrailingHyphens (l : List Char) : List Char :=
  (l.reverse.dropWhile (· == '-')).reverse

/-- Attempt pattern 2, `\b(req_[\w\-]+)\b`, at the current position (the
opening `\b` has been checked by the caller). -/
def matchBareAt (l : List Char) : Option String :=
  (matchLit "req_".toList l).bind fun l =>
  let run := stripTrailingHyphens (l.takeWhile isWordOrHyphen)
  if run.isEmpty then none else some ("req_" ++ String.mk run)

/-- `re.search` for pattern 2, tracking the previous character for the
opening word boundary. -/
def searchBare (prev : Option Char) : List Char → Option String
  | [] => none
  | c :: cs =>
    match
      (if (match prev with | none => true | some p => !isWordChar p) then
        matchBareAt (c :: cs)
       else none) with
    | some s => some s
    | none => searchBare (some c) cs

/-- Attempt pattern 3, `req[_\-]([\w\-]+)` with `re.IGNORECASE`, at the
current position; the result is `"req_" + group(1)`. -/
def matchLooseAt (l : List Char) : Option String :=
  (matchLitCi "req".toList l).bind fun pr =>
  match pr.2 with
  | s :: rest =>
    if s == '_' || s == '-' then
      let run := rest.takeWhile isWordOrHyphen
      if run.isEmpty then none else some ("req_" ++ String.mk run)
    else none
  | [] => none

/-- `re.search` for pattern 3. -/
def searchLoose : List Char → Option String
  | [] => none
  | c :: cs =>
    match matchLooseAt (c :: cs) with
    | some s => some s
    | none => searchLoose cs

/-- `EmailClient._extract_request_id`: the tagged form first, then a bare
`req_…` token at a word boundary, then the loose fallback. -/
def extractRequestId (text : String) : Option String :=
  if text = "" then none
  else
    match searchTagged text.toList with
    | some s => some s
    | none =>
      match searchBare none text.toList with
      | some s => some s
      | none => searchLoose text.toList

/-! ## Tagged-line containment and concrete scenario data -/

/-- The body carries the line `[Request ID: <tok>]` verbatim. -/
def containsTagged (body tok : String) : Prop :=
  ∃ u v, body = u ++ ("[Request ID: " ++ tok ++ "]") ++ v

/-- An environment with a fixed extraction result, a fixed availability
batch and a fixed `create_event` result. -/
def envOf (v : JsonV) (batch : List RSlot) (ce : Except Unit EventInfo) : Env :=
  ⟨fun _ _ => ⟨some v, none, ""⟩, fun _ => batch, fun _ => ce⟩

/-- Two offered slots, Monday 2025-03-10 10:00 and Tuesday 2025-03-11
14:00, one hour each. -/
def demoSlots : List RSlot :=
  [⟨"2025-03-10T10:00:00", "2025-03-10T11:00:00"⟩,
   ⟨"2025-03-11T14:00:00", "2025-03-11T15:00:00"⟩]

/-- An extracted respondent slot matching the first offered slot. -/
def demoCandidateSlots : JsonV :=
  .arr [.obj [("date", .str "2025-03-10"), ("start_time", .str "10:00"),
              ("end_time", .str "11:00"), ("timezone", .null)]]

/-- A `provide_availability` extraction carrying `demoCandidateSlots`. -/
def provideAvailabilityReply : JsonV :=
  .obj [("action", .str "provide_availability"), ("slots", demoCandidateSlots)]

/-- The matched slot `_find_overlap` returns for the demo data. -/
def demoMatchedSlot : OutSlot :=
  ⟨"2025-03-10T10:00:00", "2025-03-10T11:00:00", "Monday, March 10 at 10:00 AM"⟩

/-- A demo request in a given status. -/
def demoRequest (st : String) (cf : Option OutSlot) : Request :=
  ⟨"r@x.com", "c@y.com", "Engineer", 60, [], demoSlots, .arr [], cf, st⟩

/-- A respondent slot whose stated end is before its start. -/
def demoEndBeforeStartSlot : JsonV :=
  .obj [("date", .str "2025-03-10"), ("start_time", .str "10:00"),
        ("end_time", .str "09:00")]

/-! # Theorems -/

/-- A body with no `[` cannot contain a tagged line. -/
theorem not_containsTagged_of_no_bracket {body tok : String}
    (h : '[' ∉ body.data) : ¬ containsTagged body tok := by
  rintro ⟨u, v, rfl⟩
  apply h
  have h1 : '[' ∈ ("[Request ID: " ++ tok ++ "]").data := by
    rw [String.data_append, String.data_append]
    exact List.mem_append.mpr (Or.inl (List.mem_append.mpr (Or.inl (by decide))))
  rw [String.data_append, String.data_append]
  exact List.mem_append.mpr (Or.inl (List.mem_append.mpr (Or.inr h1)))

/-- C2: the claim fails on the code — `handle_email_reply` has no status
guard, so handling the very same `provide_availability` reply a second
time after the Request is already `confirmed` re-runs the whole pipeline:
it books a second calendar event and re-sends both booking notification
emails (the confirmed slot is re-assigned the same value). -/
theorem handleReply_second_call_after_confirmed_resends :
    (handleEmailReply (envOf provideAvailabilityReply [] (.ok ⟨none⟩))
        [("req_1", demoRequest "awaiting_candidate" none)]
        "req_1" "c@y.com" "Monday at 10am works").2.1 =
      [("req_1",
        { demoRequest "awaiting_candidate" none with
            conversationHistory := [("c@y.com", "Monday at 10am works")],
            candidateSlots := demoCandidateSlots,
            confirmedSlot := some demoMatchedSlot,
            status := "confirmed" })] ∧
    (handleEmailReply (envOf provideAvailabilityReply [] (.ok ⟨none⟩))
        [("req_1",
          { demoRequest "awaiting_candidate" none with
              conversationHistory := [("c@y.com", "Monday at 10am works")],
              candidateSlots := demoCandidateSlots,
              confirmedSlot := some demoMatchedSlot,
              status := "confirmed" })]
        "req_1" "c@y.com" "Monday at 10am works").2.2.emails.map Mail.subject =
      ["✅ Interview Confirmed – Engineer",
       "✅ Interview Booked – Engineer | Monday, March 10, 2025 at 10:00 AM"] ∧
    (handleEmailReply (envOf provideAvailabilityReply [] (.ok ⟨none⟩))
        [("req_1",
          { demoRequest "awaiting_candidate" none with
              conversationHistory := [("c@y.com", "Monday at 10am works")],
              candidateSlots := demoCandidateSlots,
              confirmedSlot := some demoMatchedSlot,
              status := "confirmed" })]
        "req_1" "c@y.com" "Monday at 10am works").2.2.events.length = 1 := by
  refine ⟨?_, ?_, ?_⟩ <;> rfl

/-- C3: the claim fails on the code — nothing prevents a transition out
of a terminal status: a `provide_availability` reply with a matching slot
moves a `cancelled` Request straight to `confirmed`. -/
theorem cancelled_request_transitions_to_confirmed :
    ((handleEmailReply (envOf provideAvailabilityReply [] (.ok ⟨none⟩))
        [("req_1", demoRequest "cancelled" none)]
        "req_1" "c@y.com" "Monday works").2.1.lookup "req_1").map Request.status =
      some "confirmed" := by
  rfl

/-- C4: the claim fails on the code — there is no `UnavailableError`
anywhere: with zero available intervals, `initiate_scheduling` still
returns normally, sends the offer email (listing no slots) and the
Request reaches `awaiting_candidate`. -/
theorem initiate_with_empty_calendar_proceeds :
    ((initiateScheduling (envOf .null [] (.ok ⟨none⟩)) []
        "20250310120000" "r@x.com" "c@y.com" "Engineer" 60).2.1.lookup
          "req_20250310120000_c").map Request.status = some "awaiting_candidate" ∧
    (initiateScheduling (envOf .null [] (.ok ⟨none⟩)) []
        "20250310120000" "r@x.com" "c@y.com" "Engineer" 60).2.2.emails.length = 1 ∧
    (initiateScheduling (envOf .null [] (.ok ⟨none⟩)) []
        "20250310120000" "r@x.com" "c@y.com" "Engineer" 60).2.2.queries =
      [⟨"r@x.com", 60, 14, []⟩] := by
  refine ⟨?_, ?_, ?_⟩ <;> rfl

/-- C6: the claim fails on the code — `confirmed_slot` is assigned before
`create_event` is called and `status` only after it returns, so a raising
calendar adapter propagates an exception that leaves the Request with
`confirmed_slot` set while `status` is still `awaiting_candidate`. -/
theorem createEvent_exception_corrupts_request :
    (handleEmailReply (envOf provideAvailabilityReply [] (.error ()))
        [("req_1", demoRequest "awaiting_candidate" none)]
        "req_1" "c@y.com" "Monday works").1 = .error () ∧
    ((handleEmailReply (envOf provideAvailabilityReply [] (.error ()))
        [("req_1", demoRequest "awaiting_candidate" none)]
        "req_1" "c@y.com" "Monday works").2.1.lookup "req_1").map
          Request.confirmedSlot = some (some demoMatchedSlot) ∧
    ((handleEmailReply (envOf provideAvailabilityReply [] (.error ()))
        [("req_1", demoRequest "awaiting_candidate" none)]
        "req_1" "c@y.com" "Monday works").2.1.lookup "req_1").map
          Request.status = some "awaiting_candidate" := by
  refine ⟨?_, ?_, ?_⟩ <;> rfl

/-- C5 counterexample: `needs_human` is not enforced as terminal — a
further reply routed to the same Request (here with intent
`request_other_times`) performs another automated widened calendar fetch
and, the batch being empty again, sends a second escalation notice. -/
theorem needs_human_request_still_retried :
    (handleEmailReply (envOf (.obj [("action", .str "request_other_times")]) []
          (.ok ⟨none⟩))
        [("req_1", demoRequest "needs_human" none)]
        "req_1" "c@y.com" "any other times?").2.2.emails.map Mail.subject =
      ["⚠️ Manual Scheduling Required – Engineer"] ∧
    (handleEmailReply (envOf (.obj [("action", .str "request_other_times")]) []
          (.ok ⟨none⟩))
        [("req_1", demoRequest "needs_human" none)]
        "req_1" "c@y.com" "any other times?").2.2.queries =
      [⟨"r@x.com", 60, 21, demoSlots⟩] := by
  exact ⟨rfl, rfl⟩

/-- C7 counterexample: the token minted for candidate
`john.doe@example.com` contains a dot, which `[\w\-]+` cannot match: the
tagged pattern fails on the quoted tagged line and the bare-token pattern
truncates the token at the dot, so extraction does not round-trip. -/
theorem token_with_dot_does_not_roundtrip :
    mkRequestId "20250310120000" "john.doe@example.com" =
      "req_20250310120000_john.doe" ∧
    extractRequestId "> [Request ID: req_20250310120000_john.doe]" =
      some "req_20250310120000_john" ∧
    "req_20250310120000_john" ≠ "req_20250310120000_john.doe" := by
  refine ⟨rfl, rfl, ?_⟩
  decide

/-- C8 counterexample: the cancellation notice sent for a declined demo
request contains no `[Request ID: …]` line at all (its body has no `[`),
so it cannot carry the Request's token `req_20250310120000_c`. -/
theorem cancellation_notice_lacks_tagged_line :
    ¬ containsTagged (cancellationMail (demoRequest "cancelled" none)).body
        "req_20250310120000_c" := by
  apply not_containsTagged_of_no_bracket
  decide

/-- C9 counterexample: extractor output that parses as JSON but is not
the expected object — here the empty object `{}` — makes
`extracted["action"]` raise an uncaught `KeyError` that escapes
`handle_email_reply`, instead of degrading to `unclear`. -/
theorem malformed_json_object_escapes :
    (handleEmailReply (envOf (.obj []) [] (.ok ⟨none⟩))
        [("req_1", demoRequest "awaiting_candidate" none)]
        "req_1" "c@y.com" "gibberish").1 = .error () := by
  rfl

/-- C10: for every respondent slot dictionary whose date and start time
parse and every positive duration, `_parse_candidate_slot_end` returns an
instant: the stated `end_time` exactly when it parses and is strictly
later than the start, and `start + duration` in every other case — so the
end is always strictly after the start and a non-positive-length
respondent interval can never reach the overlap computation. -/
theorem candidate_end_strictly_after_start (cs : JsonV) (d : Nat) (hd : 0 < d)
    (st : DateTime) (hst : parseCandidateSlotStart cs = some st) :
    parseCandidateSlotEnd cs d =
      some (match statedEndDT cs with
            | some en =>
              if st.toMicros < en.toMicros then en.toMicros
              else st.toMicros + minutesToMicros d
            | none => st.toMicros + minutesToMicros d) ∧
    ∀ e, parseCandidateSlotEnd cs d = some e → st.toMicros < e := by
  have hfall : st.toMicros < st.toMicros + minutesToMicros d := by
    have : 0 < minutesToMicros d := by
      unfold minutesToMicros; omega
    omega
  have hmain : parseCandidateSlotEnd cs d =
      some (match statedEndDT cs with
            | some en =>
              if st.toMicros < en.toMicros then en.toMicros
              else st.toMicros + minutesToMicros d
            | none => st.toMicros + minutesToMicros d) := by
    match cs with
    | .null | .boolv _ | .num _ | .str _ | .arr _ =>
      simp [parseCandidateSlotStart] at hst
    | .obj m =>
      unfold parseCandidateSlotEnd statedEndDT
      rw [hst]
      cases hv : (m.lookup "end_time").getD (.str "") with
      | null => simp [hv, truthy]
      | boolv b => cases b <;> simp [hv, truthy]
      | num n =>
        by_cases hn : n = 0 <;> simp [hv, truthy, hn]
      | arr l => cases l <;> simp [hv, truthy]
      | obj l => cases l <;> simp [hv, truthy]
      | str es =>
        by_cases hes : es = ""
        · simp [hv, truthy, hes]
        · simp only [hv, truthy, hes, Bool.not_eq_true', decide_eq_false_iff_not,
            not_false_iff, if_false, Bool.not_true, if_neg, decide_eq_true_eq]
          cases hdv : m.lookup "date" with
          | none => simp [hdv, hes]
          | some dv =>
            cases dv <;> simp [hdv, hes] <;>
              rename_i ds <;>
              cases hpe : strptimeYmdHM 'T' (ds.data ++ 'T' :: List.take 5 es.data) <;>
                simp [hpe] <;> split <;> rfl
  refine ⟨hmain, fun e he => ?_⟩
  rw [hmain] at he
  simp only [Option.some.injEq] at he
  match hsd : statedEndDT cs with
  | some en =>
    rw [hsd] at he
    simp only [] at he
    by_cases hlt : st.toMicros < en.toMicros
    · rw [if_pos hlt] at he
      omega
    · rw [if_neg hlt] at he
      omega
  | none =>
    rw [hsd] at he
    have he' : st.toMicros + minutesToMicros d = e := he
    omega

/-- Digit characters are never `[`. -/
theorem digc_ne_bracket (n : Nat) : digc n ≠ '[' := by
  unfold digc digTable
  split <;> decide

/-- `%02d` renderings contain no `[`. -/
theorem not_mem_dig2 (n : Nat) : '[' ∉ dig2 n := by
  intro h
  simp only [dig2, List.mem_cons, List.not_mem_nil, or_false] at h
  rcases h with h | h <;> exact digc_ne_bracket _ h.symm

/-- `%04d` renderings contain no `[`. -/
theorem not_mem_dig4 (n : Nat) : '[' ∉ dig4 n := by
  intro h
  simp only [dig4, List.mem_cons, List.not_mem_nil, or_false] at h
  rcases h with h | h | h | h <;> exact digc_ne_bracket _ h.symm

/-- Weekday names contain no `[`. -/
theorem weekdayName_no_bracket (w : Nat) : '[' ∉ (weekdayName w).data := by
  unfold weekdayName
  split <;> decide

/-- Month names contain no `[`. -/
theorem monthName_no_bracket (m : Nat) : '[' ∉ (monthName m).data := by
  unfold monthName
  split <;> decide

/-- `AM`/`PM` contains no `[`. -/
theorem amPm_no_bracket (h : Nat) : '[' ∉ (amPm h).data := by
  unfold amPm
  split <;> decide

/-- The long `strftime` rendering contains no `[`. -/
theorem displayLong_no_bracket (t : DateTime) : '[' ∉ (displayLong t).data := by
  unfold displayLong
  simp [String.data_append, List.mem_append, weekdayName_no_bracket,
    monthName_no_bracket, not_mem_dig2, not_mem_dig4, amPm_no_bracket]

/-- `slot_display` contains no `[` when the slot's `display` field has
none. -/
theorem confirmationSlotDisplay_no_bracket (slot : OutSlot)
    (h3 : '[' ∉ slot.display.data) :
    '[' ∉ (confirmationSlotDisplay slot).data := by
  unfold confirmationSlotDisplay
  rcases h1 : parseDT slot.start with _ | s
  · rcases h2 : parseDT slot.stop with _ | e
    · simp only [h1, h2]; exact h3
    · simp only [h1, h2]; exact h3
  · rcases h2 : parseDT slot.stop with _ | e
    · simp only [h1, h2]; exact h3
    · simp only [h1, h2]; exact displayLong_no_bracket _

/-- The meet-link fragment contains no `[` when the link has none. -/
theorem meetLinkPart_no_bracket (ev : EventInfo)
    (hm : ∀ s, ev.meetLink = some s → '[' ∉ s.data) :
    '[' ∉ (meetLinkPart ev).data := by
  rcases hml : ev.meetLink with _ | s
  · have h0 : meetLinkPart ev = "" := by
      unfold meetLinkPart; rw [hml]
    rw [h0]; exact List.not_mem_nil _
  · by_cases hs : s = ""
    · have h0 : meetLinkPart ev = "" := by
        unfold meetLinkPart; rw [hml]; simp [hs]
      rw [h0]; exact List.not_mem_nil _
    · have h0 : meetLinkPart ev = "\nGoogle Meet Link: " ++ s := by
        unfold meetLinkPart; rw [hml]; simp [hs]
      rw [h0]
      simp only [String.data_append, List.mem_append, not_or]
      exact ⟨by decide, hm s hml⟩

/-- A parsed digit is at most 9. -/
theorem pDigit_le {c : Char} {x : Nat} (h : pDigit c = some x) : x ≤ 9 := by
  unfold pDigit at h
  split at h
  · simp only [Option.some.injEq] at h
    omega
  · exact absurd h (by simp)

/-- `%Y` yields at most 9999. -/
theorem pYear_le {l : List Char} {y : Nat} {r : List Char}
    (h : pYear l = some (y, r)) : y ≤ 9999 := by
  unfold pYear at h
  split at h
  · rename_i a b c d rest
    rcases ha : pDigit a with _ | xa <;> rcases hb : pDigit b with _ | xb <;>
      rcases hc : pDigit c with _ | xc <;> rcases hd : pDigit d with _ | xd <;>
      simp_all
    have := pDigit_le ha
    have := pDigit_le hb
    have := pDigit_le hc
    have := pDigit_le hd
    omega
  · simp_all

/-- A one-or-two-digit field is bounded by its larger upper limit. -/
theorem pNum2_le {lo2 hi2 lo1 hi1 : Nat} {l : List Char} {v : Nat} {r : List Char}
    (h : pNum2 lo2 hi2 lo1 hi1 l = some (v, r)) : v ≤ max hi2 hi1 := by
  unfold pNum2 at h
  split at h
  · rename_i a b rest
    rcases ha : pDigit a with _ | xa <;> rcases hb : pDigit b with _ | xb <;>
        simp only [ha, hb] at h <;>
      (repeat' split at h) <;> simp_all <;> omega
  · rename_i a
    rcases ha : pDigit a with _ | xa <;> simp only [ha] at h <;>
      (repeat' split at h) <;> simp_all <;> omega
  · simp_all

/-- `grabDigits` returns at most `n` digit values, each at most 9. -/
theorem grabDigits_spec (n : Nat) (l : List Char) :
    (grabDigits n l).1.length ≤ n ∧ ∀ d ∈ (grabDigits n l).1, d ≤ 9 := by
  induction n generalizing l with
  | zero => simp [grabDigits]
  | succ n ih =>
    cases l with
    | nil => simp [grabDigits]
    | cons c rest =>
      unfold grabDigits
      rcases hc : pDigit c with _ | d
      · simp
      · simp only []
        have := ih rest
        constructor
        · simp only [List.length_cons]
          omega
        · intro x hx
          simp only [List.mem_cons] at hx
          rcases hx with rfl | hx
          · exact pDigit_le hc
          · exact this.2 x hx

/-- Folding digit values stays below the corresponding power of ten. -/
theorem foldl_digits_lt (ds : List Nat) (hds : ∀ d ∈ ds, d ≤ 9) :
    ∀ acc, ds.foldl (fun a d => a * 10 + d) acc < (acc + 1) * 10 ^ ds.length := by
  induction ds with
  | nil =>
    intro acc
    simp only [List.foldl_nil, List.length_nil, Nat.pow_zero]
    omega
  | cons d rest ih =>
    intro acc
    simp only [List.foldl_cons, List.length_cons]
    have h1 : rest.foldl (fun a d => a * 10 + d) (acc * 10 + d) <
        (acc * 10 + d + 1) * 10 ^ rest.length :=
      ih (fun x hx => hds x (List.mem_cons_of_mem d hx)) (acc * 10 + d)
    have hd : d ≤ 9 := hds d (List.mem_cons_self d rest)
    have h2 : (acc * 10 + d + 1) * 10 ^ rest.length ≤
        ((acc + 1) * 10) * 10 ^ rest.length := by
      apply Nat.mul_le_mul_right
      omega
    have h3 : ((acc + 1) * 10) * 10 ^ rest.length = (acc + 1) * 10 ^ (rest.length + 1) := by
      rw [Nat.pow_succ]
      ring
    omega

/-- `%f` yields fewer than 1000000 microseconds. -/
theorem pMicros_lt {l : List Char} {us : Nat} {r : List Char}
    (h : pMicros l = some (us, r)) : us < 1000000 := by
  unfold pMicros at h
  rcases hg : grabDigits 6 l with ⟨ds, rest⟩
  rw [hg] at h
  simp only [] at h
  split at h
  · simp_all
  · simp only [Option.some.injEq, Prod.mk.injEq] at h
    obtain ⟨rfl, rfl⟩ := h
    have hspec := grabDigits_spec 6 l
    rw [hg] at hspec
    have hlen : ds.length ≤ 6 := hspec.1
    have hfold := foldl_digits_lt ds hspec.2 0
    simp only [Nat.zero_add, Nat.one_mul] at hfold
    calc ds.foldl (fun a d => a * 10 + d) 0 * 10 ^ (6 - ds.length)
        < 10 ^ ds.length * 10 ^ (6 - ds.length) := by
          refine (Nat.mul_lt_mul_right ?_).mpr ?_
          · exact Nat.pow_pos (by omega)
          · exact hfold
      _ = 10 ^ 6 := by
          rw [← Nat.pow_add]
          congr 1
          omega
      _ = 1000000 := by norm_num

/-- What the constructor check guarantees. -/
theorem mkDateTime?_spec {y mo d h mi s us : Nat} {t : DateTime}
    (hmk : mkDateTime? y mo d h mi s us = some t) :
    t = ⟨y, mo, d, h, mi, s, us⟩ ∧ 1 ≤ y ∧ d ≤ daysInMonth y mo ∧ s ≤ 59 := by
  unfold mkDateTime? at hmk
  split at hmk
  · rename_i hcond
    simp only [Option.some.injEq] at hmk
    exact ⟨hmk.symm, hcond.1, hcond.2.1, hcond.2.2⟩
  · simp_all

/-- `strptime "%Y-%m-%d{sep}%H:%M"` yields in-range fields. -/
theorem strptimeYmdHM_inRange {sep : Char} {l : List Char} {t : DateTime}
    (h : strptimeYmdHM sep l = some t) : t.InRange := by
  simp only [strptimeYmdHM, Option.bind_eq_some] at h
  obtain ⟨⟨y, l1⟩, hy, h⟩ := h
  obtain ⟨l2, hl1, h⟩ := h
  obtain ⟨⟨mo, l3⟩, hmo, h⟩ := h
  obtain ⟨l4, hl2, h⟩ := h
  obtain ⟨⟨d, l5⟩, hd, h⟩ := h
  obtain ⟨l6, hl3, h⟩ := h
  obtain ⟨⟨hh, l7⟩, hhh, h⟩ := h
  obtain ⟨l8, hl4, h⟩ := h
  obtain ⟨⟨mi, l9⟩, hmi, h⟩ := h
  split at h
  · obtain ⟨rfl, hy1, hd1, hs1⟩ := mkDateTime?_spec h
    have := pYear_le hy
    have := pNum2_le hmo
    have := pNum2_le hd
    have := pNum2_le hhh
    have := pNum2_le hmi
    unfold DateTime.InRange
    simp only []
    omega
  · simp_all

/-- `strptime "%Y-%m-%d{sep}%H:%M:%S"` yields in-range fields. -/
theorem strptimeYmdHMS_inRange {sep : Char} {l : List Char} {t : DateTime}
    (h : strptimeYmdHMS sep l = some t) : t.InRange := by
  simp only [strptimeYmdHMS, Option.bind_eq_some] at h
  obtain ⟨⟨y, l1⟩, hy, h⟩ := h
  obtain ⟨l2, hl1, h⟩ := h
  obtain ⟨⟨mo, l3⟩, hmo, h⟩ := h
  obtain ⟨l4, hl2, h⟩ := h
  obtain ⟨⟨d, l5⟩, hd, h⟩ := h
  obtain ⟨l6, hl3, h⟩ := h
  obtain ⟨⟨hh, l7⟩, hhh, h⟩ := h
  obtain ⟨l8, hl4, h⟩ := h
  obtain ⟨⟨mi, l9⟩, hmi, h⟩ := h
  obtain ⟨l10, hl5, h⟩ := h
  obtain ⟨⟨s, l11⟩, hs, h⟩ := h
  split at h
  · obtain ⟨rfl, hy1, hd1, hs1⟩ := mkDateTime?_spec h
    have := pYear_le hy
    have := pNum2_le hmo
    have := pNum2_le hd
    have := pNum2_le hhh
    have := pNum2_le hmi
    unfold DateTime.InRange
    simp only []
    omega
  · simp_all

/-- `strptime "%Y-%m-%dT%H:%M:%S.%f"` yields in-range fields. -/
theorem strptimeYmdHMSf_inRange {l : List Char} {t : DateTime}
    (h : strptimeYmdHMSf l = some t) : t.InRange := by
  simp only [strptimeYmdHMSf, Option.bind_eq_some] at h
  obtain ⟨⟨y, l1⟩, hy, h⟩ := h
  obtain ⟨l2, hl1, h⟩ := h
  obtain ⟨⟨mo, l3⟩, hmo, h⟩ := h
  obtain ⟨l4, hl2, h⟩ := h
  obtain ⟨⟨d, l5⟩, hd, h⟩ := h
  obtain ⟨l6, hl3, h⟩ := h
  obtain ⟨⟨hh, l7⟩, hhh, h⟩ := h
  obtain ⟨l8, hl4, h⟩ := h
  obtain ⟨⟨mi, l9⟩, hmi, h⟩ := h
  obtain ⟨l10, hl5, h⟩ := h
  obtain ⟨⟨s, l11⟩, hs, h⟩ := h
  obtain ⟨l12, hl6, h⟩ := h
  obtain ⟨⟨us, l13⟩, hus, h⟩ := h
  split at h
  · obtain ⟨rfl, hy1, hd1, hs1⟩ := mkDateTime?_spec h
    have := pYear_le hy
    have := pNum2_le hmo
    have := pNum2_le hd
    have := pNum2_le hhh
    have := pNum2_le hmi
    have := pMicros_lt hus
    unfold DateTime.InRange
    simp only []
    omega
  · simp_all

/-- Every datetime `_parse_dt` produces has in-range fields. -/
theorem parseDT_inRange {s : String} {t : DateTime}
    (h : parseDT s = some t) : t.InRange := by
  have key : ∀ L : List Char,
      (strptimeYmdHMSf L <|> strptimeYmdHMS 'T' L <|> strptimeYmdHM 'T' L <|>
        strptimeYmdHMS ' ' L <|> strptimeYmdHM ' ' L) = some t → t.InRange := by
    intro L h
    rcases h1 : strptimeYmdHMSf L with _ | t1
    swap
    · rw [h1] at h
      simp only [Option.some_orElse, Option.some.injEq] at h
      subst h
      exact strptimeYmdHMSf_inRange h1
    rw [h1] at h
    simp only [Option.none_orElse] at h
    rcases h2 : strptimeYmdHMS 'T' L with _ | t2
    swap
    · rw [h2] at h
      simp only [Option.some_orElse, Option.some.injEq] at h
      subst h
      exact strptimeYmdHMS_inRange h2
    rw [h2] at h
    simp only [Option.none_orElse] at h
    rcases h3 : strptimeYmdHM 'T' L with _ | t3
    swap
    · rw [h3] at h
      simp only [Option.some_orElse, Option.some.injEq] at h
      subst h
      exact strptimeYmdHM_inRange h3
    rw [h3] at h
    simp only [Option.none_orElse] at h
    rcases h4 : strptimeYmdHMS ' ' L with _ | t4
    swap
    · rw [h4] at h
      simp only [Option.some_orElse, Option.some.injEq] at h
      subst h
      exact strptimeYmdHMS_inRange h4
    rw [h4] at h
    simp only [Option.none_orElse] at h
    exact strptimeYmdHM_inRange h
  exact key _ h

/-- Distinct digits render to distinct characters. -/
theorem digTable_inj : ∀ a < 10, ∀ b < 10, digTable a = digTable b → a = b := by
  decide

/-- Equal digit characters mean equal residues. -/
theorem digc_mod_eq {a b : Nat} (h : digc a = digc b) : a % 10 = b % 10 :=
  digTable_inj _ (Nat.mod_lt _ (by omega)) _ (Nat.mod_lt _ (by omega)) h

/-- `isoformat` is injective on datetimes with in-range fields, i.e. the
`"start"` string of a matched slot identifies the start instant. -/
theorem isoformat_inj {t1 t2 : DateTime} (hr1 : t1.InRange) (hr2 : t2.InRange)
    (h : isoformat t1 = isoformat t2) : t1 = t2 := by
  obtain ⟨y1, mo1, d1, hh1, mi1, s1, u1⟩ := t1
  obtain ⟨y2, mo2, d2, hh2, mi2, s2, u2⟩ := t2
  simp only [DateTime.InRange] at hr1 hr2
  obtain ⟨hy1, hmo1, hd1, hh1', hmi1', hs1', hu1'⟩ := hr1
  obtain ⟨hy2, hmo2, hd2, hh2', hmi2', hs2', hu2'⟩ := hr2
  have hd := congrArg String.data h
  simp only [isoformat, dig4, dig2, List.cons_append, List.nil_append,
    List.append_assoc] at hd
  simp only [List.cons.injEq] at hd
  obtain ⟨e1, e2, e3, e4, -, e5, e6, -, e7, e8, -, e9, e10, -, e11, e12, -,
    e13, e14, esuf⟩ := hd
  simp only [DateTime.mk.injEq]
  have g1 := digc_mod_eq e1
  have g2 := digc_mod_eq e2
  have g3 := digc_mod_eq e3
  have g4 := digc_mod_eq e4
  have g5 := digc_mod_eq e5
  have g6 := digc_mod_eq e6
  have g7 := digc_mod_eq e7
  have g8 := digc_mod_eq e8
  have g9 := digc_mod_eq e9
  have g10 := digc_mod_eq e10
  have g11 := digc_mod_eq e11
  have g12 := digc_mod_eq e12
  have g13 := digc_mod_eq e13
  have g14 := digc_mod_eq e14
  refine ⟨by omega, by omega, by omega, by omega, by omega, by omega, ?_⟩
  by_cases hz1 : u1 = 0 <;> by_cases hz2 : u2 = 0
  · omega
  · rw [if_pos (by simp [hz1]), if_neg (by simp [hz2])] at esuf
    cases esuf
  · rw [if_neg (by simp [hz1]), if_pos (by simp [hz2])] at esuf
    cases esuf
  · rw [if_neg (by simp [hz1]), if_neg (by simp [hz2])] at esuf
    simp only [dig6, List.cons.injEq] at esuf
    obtain ⟨-, f1, f2, f3, f4, f5, f6, -⟩ := esuf
    have k1 := digc_mod_eq f1
    have k2 := digc_mod_eq f2
    have k3 := digc_mod_eq f3
    have k4 := digc_mod_eq f4
    have k5 := digc_mod_eq f5
    have k6 := digc_mod_eq f6
    omega

/-- The `if`/`elif` tier chain of the code equals the spec's
first-firing-tier acceptance. -/
theorem fires_eq_specAccepts (oS oE rS : DateTime) (rE d : Nat) :
    fires oS oE rS rE d = specAccepts oS oE rS rE d := by
  unfold fires specAccepts specTier1 specTier2 specTier3 specTier4
  rfl

/-- The per-pair decision of the code equals the spec's. -/
theorem matchPair_eq_specPairFires (s e : DateTime) (d : Nat) (cs : JsonV) :
    matchPair s e d cs = specPairFires s e d cs := by
  unfold matchPair specPairFires
  cases parseCandidateSlotStart cs <;> cases parseCandidateSlotEnd cs d <;>
    simp [fires_eq_specAccepts]

/-- A constant-valued `filterMap` is a replicate of the hit count. -/
theorem filterMap_if_const {α β : Type} (p : α → Bool) (v : β) (l : List α) :
    l.filterMap (fun a => if p a then some v else none) =
      List.replicate (l.countP p) v := by
  induction l with
  | nil => rfl
  | cons a rest ih =>
    by_cases hp : p a
    · simp [List.filterMap_cons, hp, List.countP_cons, ih, List.replicate_succ,
        Nat.add_comm]
    · simp [List.filterMap_cons, hp, List.countP_cons, ih]

/-- Copies of an already-seen slot are all dropped. -/
theorem dedupGo_seen_replicate (seen : List String) (x : OutSlot) (n : Nat)
    (l : List OutSlot) (hx : x.start ∈ seen) :
    dedupGo seen (List.replicate n x ++ l) = dedupGo seen l := by
  induction n with
  | zero => rfl
  | succ n ih =>
    simp only [List.replicate_succ, List.cons_append]
    conv_lhs => rw [dedupGo]
    rw [if_pos hx]
    exact ih

/-- A nonempty block of copies behaves like a single occurrence. -/
theorem dedupGo_replicate_cons (seen : List String) (x : OutSlot) (n : Nat)
    (l : List OutSlot) (hn : n ≠ 0) :
    dedupGo seen (List.replicate n x ++ l) = dedupGo seen (x :: l) := by
  obtain ⟨m, rfl⟩ : ∃ m, n = m + 1 := ⟨n - 1, by omega⟩
  simp only [List.replicate_succ, List.cons_append]
  conv_lhs => rw [dedupGo]
  conv_rhs => rw [dedupGo]
  by_cases hx : x.start ∈ seen
  · rw [if_pos hx, if_pos hx]
    exact dedupGo_seen_replicate _ _ _ _ hx
  · rw [if_neg hx, if_neg hx]
    congr 1
    exact dedupGo_seen_replicate _ _ _ _ (List.mem_cons_self _ _)

/-- Main refinement induction: with any consistent pair of seen sets, the
code's dedup loop over its duplicated pre-list renders the spec's
dedup-by-start-instant over its filtered pre-list. -/
theorem findOverlap_refines (css : List JsonV) (d : Nat) :
    ∀ (rss : List RSlot) (seenD : List DateTime),
      (∀ x ∈ seenD, x.InRange) →
      dedupGo (seenD.map isoformat) (overlapPre rss css d) =
        (specDedup seenD (specMatchedPre rss css d)).map
          (fun p => renderSlot p.1 p.2) := by
  intro rss
  induction rss with
  | nil => intro seenD hseen; rfl
  | cons rs rest ih =>
    intro seenD hseen
    simp only [overlapPre, specMatchedPre, List.flatMap_cons, List.filterMap_cons]
    rcases hps : parseDT rs.start with _ | s
    · simp only [hps, List.nil_append]
      exact ih seenD hseen
    · rcases hpe : parseDT rs.stop with _ | e
      · simp only [hps, hpe, List.nil_append]
        exact ih seenD hseen
      · simp only [hps, hpe]
        rw [filterMap_if_const (matchPair s e d) (renderSlot s e) css]
        by_cases hc : css.countP (matchPair s e d) = 0
        · have hany : css.any (specPairFires s e d) = false := by
            rw [List.any_eq_false]
            intro cs hcs
            rw [← matchPair_eq_specPairFires]
            exact List.countP_eq_zero.mp hc cs hcs
          rw [hc, hany]
          simp only [List.replicate_zero, List.nil_append, if_false]
          exact ih seenD hseen
        · have hany : css.any (specPairFires s e d) = true := by
            rw [List.any_eq_true]
            obtain ⟨cs, hcs, hp⟩ :=
              List.countP_pos_iff.mp (Nat.pos_of_ne_zero hc)
            exact ⟨cs, hcs, by rw [← matchPair_eq_specPairFires]; exact hp⟩
          rw [dedupGo_replicate_cons _ _ _ _ hc, hany]
          simp only [if_true]
          have hsInR : s.InRange := parseDT_inRange hps
          conv_lhs => rw [dedupGo]
          conv_rhs => rw [specDedup]
          by_cases hmem : s ∈ seenD
          · have hmemS : (renderSlot s e).start ∈ seenD.map isoformat :=
              List.mem_map.mpr ⟨s, hmem, rfl⟩
            have hmemP : (s, e).1 ∈ seenD := hmem
            rw [if_pos hmemS, if_pos hmemP]
            exact ih seenD hseen
          · have hnot : (renderSlot s e).start ∉ seenD.map isoformat := by
              intro hin
              obtain ⟨x, hx, hxe⟩ := List.mem_map.mp hin
              exact hmem (isoformat_inj (hseen x hx) hsInR hxe ▸ hx)
            have hmemP : (s, e).1 ∉ seenD := hmem
            rw [if_neg hnot, if_neg hmemP]
            simp only [List.map_cons]
            congr 1
            exact ih (s :: seenD) fun x hx => by
              rcases List.mem_cons.mp hx with rfl | hx
              · exact hsInR
              · exact hseen x hx

/-- C1: `_find_overlap` returns exactly the result of the reference
algorithm of the spec (§4.2): offered slots iterated in order, kept when
some respondent slot fires one of the four tiers (first firing tier
accepted), deduplicated by exact start instant in first-seen order, each
kept slot rendered with its display string. The equality holds for every
offered-slot list, respondent-slot list and duration — offered slots
whose start or end fails to parse are skipped identically on both sides,
so the claim's parseability hypothesis is not even needed. -/
theorem slot_matcher_refines_spec (rss : List RSlot) (css : List JsonV) (d : Nat) :
    findOverlap rss css d =
      (specMatcher rss css d).map (fun p => renderSlot p.1 p.2) := by
  show dedupGo [] (overlapPre rss css d) =
    (specDedup [] (specMatchedPre rss css d)).map (fun p => renderSlot p.1 p.2)
  exact findOverlap_refines css d rss [] (by intro x hx; cases hx)

/-- Case-insensitive comparison is reflexive. -/
theorem ciEq_refl (c : Char) : ciEq c c = true := by
  simp [ciEq]

/-- A case-insensitive literal matches itself, consuming itself. -/
theorem matchLitCi_exact (ps rest : List Char) :
    matchLitCi ps (ps ++ rest) = some (ps, rest) := by
  induction ps with
  | nil => rfl
  | cons c cs ih => simp [matchLitCi, ciEq_refl, ih]

/-- `takeWhile` passes over a block that satisfies the predicate. -/
theorem takeWhile_all_append {p : Char → Bool} (xs ys : List Char)
    (h : ∀ x ∈ xs, p x = true) :
    (xs ++ ys).takeWhile p = xs ++ ys.takeWhile p := by
  induction xs with
  | nil => rfl
  | cons c cs ih =>
    simp only [List.cons_append, List.takeWhile_cons]
    rw [h c (List.mem_cons_self c cs)]
    simp only [if_true]
    rw [ih fun x hx => h x (List.mem_cons_of_mem c hx)]

/-- `dropWhile` passes over a block that satisfies the predicate. -/
theorem dropWhile_all_append {p : Char → Bool} (xs ys : List Char)
    (h : ∀ x ∈ xs, p x = true) :
    (xs ++ ys).dropWhile p = ys.dropWhile p := by
  induction xs with
  | nil => rfl
  | cons c cs ih =>
    simp only [List.cons_append, List.dropWhile_cons]
    rw [h c (List.mem_cons_self c cs)]
    simp only [if_true]
    exact ih fun x hx => h x (List.mem_cons_of_mem c hx)

/-- Pattern 1 never matches at a position whose character is not `[`
(case has no effect on `[`). -/
theorem matchTaggedAt_of_ne_bracket (c : Char) (cs : List Char)
    (h : ciEq '[' c = false) : matchTaggedAt (c :: cs) = none := by
  unfold matchTaggedAt
  have : matchLitCi "[Request".toList (c :: cs) = none := by
    have hlist : "[Request".toList = '[' :: "Request".toList := rfl
    rw [hlist]
    simp [matchLitCi, h]
  rw [this]
  rfl

/-- The scan of pattern 1 skips a prefix with no `[`. -/
theorem searchTagged_append_skip (u : List Char) (rest : List Char)
    (hu : ∀ c ∈ u, ciEq '[' c = false) :
    searchTagged (u ++ rest) = searchTagged rest := by
  induction u with
  | nil => rfl
  | cons c cs ih =>
    simp only [List.cons_append]
    conv_lhs => rw [searchTagged]
    rw [matchTaggedAt_of_ne_bracket c _ (hu c (List.mem_cons_self c cs))]
    exact ih fun x hx => hu x (List.mem_cons_of_mem c hx)

/-- A nonempty block makes the run nonempty. -/
theorem append_cons_isEmpty_false (a : List Char) (x : Char) (y : List Char) :
    (a ++ x :: y).isEmpty = false := by
  cases a <;> rfl

/-- Pattern 1 matches the tagged line when the token's tail consists of
word characters and hyphens: the greedy `[\w\-]+` run is exactly
`<ts>_<l>` and the next character is the closing `]`. -/
theorem matchTaggedAt_hit (ts l rest : List Char)
    (hts : ∀ c ∈ ts, isWordOrHyphen c = true)
    (hl : ∀ c ∈ l, isWordOrHyphen c = true) :
    matchTaggedAt
      ('[' :: 'R' :: 'e' :: 'q' :: 'u' :: 'e' :: 's' :: 't' :: ' ' :: 'I' :: 'D' ::
        ':' :: ' ' :: 'r' :: 'e' :: 'q' :: '_' ::
        (ts ++ ('_' :: (l ++ (']' :: rest))))) =
      some ("req_" ++ String.mk (ts ++ '_' :: l)) := by
  have hrun : (ts ++ ('_' :: (l ++ (']' :: rest)))).takeWhile isWordOrHyphen =
      ts ++ ('_' :: l) := by
    rw [takeWhile_all_append ts _ hts, List.takeWhile_cons]
    have h1 : isWordOrHyphen '_' = true := by decide
    rw [h1]
    simp only [if_true]
    rw [takeWhile_all_append l _ hl, List.takeWhile_cons]
    have h2 : isWordOrHyphen ']' = false := by decide
    rw [h2]
    simp
  have hdrop : (ts ++ ('_' :: (l ++ (']' :: rest)))).dropWhile isWordOrHyphen =
      ']' :: rest := by
    rw [dropWhile_all_append ts _ hts, List.dropWhile_cons]
    have h1 : isWordOrHyphen '_' = true := by decide
    rw [h1]
    simp only [if_true]
    rw [dropWhile_all_append l _ hl, List.dropWhile_cons]
    have h2 : isWordOrHyphen ']' = false := by decide
    rw [h2]
    simp
  show (if ((ts ++ ('_' :: (l ++ (']' :: rest)))).takeWhile isWordOrHyphen).isEmpty
          then none
        else
          match (ts ++ ('_' :: (l ++ (']' :: rest)))).dropWhile isWordOrHyphen with
          | ']' :: _ =>
            some (String.mk ('r' :: 'e' :: 'q' :: '_' ::
              ((ts ++ ('_' :: (l ++ (']' :: rest)))).takeWhile isWordOrHyphen)))
          | _ => none) =
      some ("req_" ++ String.mk (ts ++ '_' :: l))
  rw [hrun, hdrop, append_cons_isEmpty_false]
  rfl

/-- Strings with equal character lists are equal. -/
theorem string_data_ext (a b : String) (h : a.data = b.data) : a = b := by
  cases a
  cases b
  cases h
  rfl

/-- C7 (amended): a correlation token `req_<ts>_<local>` whose timestamp
and local part consist only of word characters and hyphens round-trips:
embedding it in the tagged line and re-extracting from text that wraps or
quotes the line (any prefix without `[`, e.g. `"> "`, and any suffix)
returns the original token.  The counterexample shows this fails as soon
as the local part contains a dot. -/
theorem token_roundtrip_wordlike (u : String) (ts l : List Char) (v : String)
    (hu : ∀ c ∈ u.data, ciEq '[' c = false)
    (hts : ∀ c ∈ ts, isWordOrHyphen c = true)
    (hl : ∀ c ∈ l, isWordOrHyphen c = true) :
    extractRequestId
      (u ++ "[Request ID: req_" ++ String.mk ts ++ "_" ++ String.mk l ++ "]" ++ v) =
      some ("req_" ++ String.mk ts ++ "_" ++ String.mk l) := by
  have hdata :
      (u ++ "[Request ID: req_" ++ String.mk ts ++ "_" ++ String.mk l ++ "]" ++ v).data =
        u.data ++ ('[' :: 'R' :: 'e' :: 'q' :: 'u' :: 'e' :: 's' :: 't' :: ' ' :: 'I' ::
          'D' :: ':' :: ' ' :: 'r' :: 'e' :: 'q' :: '_' ::
          (ts ++ ('_' :: (l ++ (']' :: v.data))))) := by
    simp [String.data_append, List.append_assoc]
  have hne : (u ++ "[Request ID: req_" ++ String.mk ts ++ "_" ++ String.mk l ++ "]" ++ v) ≠ "" := by
    intro h
    have h2 := congrArg String.data h
    rw [hdata] at h2
    simp at h2
  unfold extractRequestId
  rw [if_neg hne]
  simp only [String.toList]
  rw [hdata, searchTagged_append_skip u.data _ hu]
  conv_lhs => rw [searchTagged]
  rw [matchTaggedAt_hit ts l v.data hts hl]
  show some ("req_" ++ String.mk (ts ++ '_' :: l)) = _
  refine congrArg some (string_data_ext _ _ ?_)
  simp [String.data_append, List.append_assoc]

/-- C7 witness: the token `req_20250310120000_jane-x` embedded in the
tagged line, quoted with `"> "` and followed by further text, extracts
unchanged. -/
theorem token_roundtrip_wordlike_witness :
    ((∀ c ∈ ("> " : String).data, ciEq '[' c = false) ∧
     (∀ c ∈ ['2', '0', '2', '5', '0', '3', '1', '0', '1', '2', '0', '0', '0', '0'],
        isWordOrHyphen c = true) ∧
     (∀ c ∈ ['j', 'a', 'n', 'e', '-', 'x'], isWordOrHyphen c = true)) ∧
    extractRequestId
      ("> " ++ "[Request ID: req_" ++
        String.mk ['2', '0', '2', '5', '0', '3', '1', '0', '1', '2', '0', '0', '0', '0'] ++
        "_" ++ String.mk ['j', 'a', 'n', 'e', '-', 'x'] ++ "]" ++ "\n> more quoted text") =
      some ("req_" ++
        String.mk ['2', '0', '2', '5', '0', '3', '1', '0', '1', '2', '0', '0', '0', '0'] ++
        "_" ++ String.mk ['j', 'a', 'n', 'e', '-', 'x']) :=
  ⟨⟨by decide, by decide, by decide⟩,
    token_roundtrip_wordlike "> "
      ['2', '0', '2', '5', '0', '3', '1', '0', '1', '2', '0', '0', '0', '0']
      ['j', 'a', 'n', 'e', '-', 'x'] "\n> more quoted text"
      (by decide) (by decide) (by decide)⟩

/-- Bracket-freeness is preserved by concatenation. -/
theorem no_bracket_append {a b : String} (ha : '[' ∉ a.data) (hb : '[' ∉ b.data) :
    '[' ∉ (a ++ b).data := by
  rw [String.data_append]
  intro h
  rcases List.mem_append.mp h with h | h
  · exact ha h
  · exact hb h

/-- C8: only the offer emails carry the tagged line — the body of every
initial or retry offer contains `[Request ID: <token>]` verbatim with the
Request's token, while the confirmation, cancellation and escalation
messages contain no tagged line at all whenever their interpolated fields
(job title, candidate address, duration rendering, slot display, meet
link) contain no `[`. -/
theorem tagged_line_only_in_offers (requestId : String) (req : Request)
    (slots : List RSlot) (retry : Bool) (slot : OutSlot) (ev : EventInfo)
    (hjob : '[' ∉ req.jobTitle.data)
    (hcand : '[' ∉ req.candidateEmail.data)
    (hdur : '[' ∉ (toString req.durationMinutes).data)
    (hsd : '[' ∉ slot.display.data)
    (hml : ∀ s, ev.meetLink = some s → '[' ∉ s.data) :
    containsTagged (availabilityBody requestId req slots retry) requestId ∧
    (∀ tok, ¬ containsTagged (cancellationMail req).body tok) ∧
    (∀ tok, ¬ containsTagged (cancellationMail req).subject tok) ∧
    (∀ tok, ¬ containsTagged (escalationMail req).body tok) ∧
    (∀ tok, ¬ containsTagged (escalationMail req).subject tok) ∧
    (∀ mail ∈ confirmationMails req slot ev,
      (∀ tok, ¬ containsTagged mail.body tok) ∧
      (∀ tok, ¬ containsTagged mail.subject tok)) := by
  have hsdisp : '[' ∉ (confirmationSlotDisplay slot).data :=
    confirmationSlotDisplay_no_bracket slot hsd
  have hmlp : '[' ∉ (meetLinkPart ev).data := meetLinkPart_no_bracket ev hml
  have hdd : '[' ∉ (toString req.durationMinutes ++ " minutes").data :=
    no_bracket_append hdur (by decide)
  refine ⟨?_, ?_, ?_, ?_, ?_, ?_⟩
  · refine ⟨"Hi,\n\n" ++
      (if retry then
        "Thank you for your response! Unfortunately those times don't work. Here are some additional options:"
       else
        "We'd love to schedule your interview for the " ++ req.jobTitle ++ " position.") ++
      "\n\nPlease reply with which time works best for you, or suggest an alternative:\n\n" ++
      joinSep "\n" ((slots.take 6).map (availabilityLine req.durationMinutes)) ++
      "\n\nSimply reply to this email with your preferred time — our scheduling assistant will take care of the rest!" ++
      "\n\nBest regards,\nInterview Scheduling Assistant\n\n" ++
      "──────────────────────────────\n", "\n──────────────────────────────", ?_⟩
    unfold availabilityBody
    have hs1 : ("──────────────────────────────\n[Request ID: " : String) =
        "──────────────────────────────\n" ++ "[Request ID: " := by decide
    have hs2 : ("]\n──────────────────────────────" : String) =
        "]" ++ "\n──────────────────────────────" := by decide
    rw [hs1, hs2]
    have hext : ∀ a b : String, a.data = b.data → a = b := by
      rintro ⟨x⟩ ⟨y⟩ h
      cases h
      rfl
    apply hext
    simp only [String.data_append, List.append_assoc]
  · intro tok
    apply not_containsTagged_of_no_bracket
    repeat' apply no_bracket_append
    all_goals first
      | exact hjob | exact hcand | exact hdur | exact hsdisp | exact hmlp | decide
  · intro tok
    apply not_containsTagged_of_no_bracket
    repeat' apply no_bracket_append
    all_goals first
      | exact hjob | exact hcand | exact hdur | exact hsdisp | exact hmlp | decide
  · intro tok
    apply not_containsTagged_of_no_bracket
    repeat' apply no_bracket_append
    all_goals first
      | exact hjob | exact hcand | exact hdur | exact hsdisp | exact hmlp | decide
  · intro tok
    apply not_containsTagged_of_no_bracket
    repeat' apply no_bracket_append
    all_goals first
      | exact hjob | exact hcand | exact hdur | exact hsdisp | exact hmlp | decide
  · intro mail hmail
    simp only [confirmationMails, List.mem_cons, List.not_mem_nil, or_false] at hmail
    rcases hmail with rfl | rfl <;>
      refine ⟨fun tok => ?_, fun tok => ?_⟩ <;>
      (apply not_containsTagged_of_no_bracket
       repeat' apply no_bracket_append) <;>
      first
        | exact hjob | exact hcand | exact hdur | exact hsdisp | exact hmlp | decide

/-- C8 witness: a concrete offer body carries its token's tagged line and
the other notices carry none. -/
theorem tagged_line_only_in_offers_witness :
    ('[' ∉ ("Engineer" : String).data ∧ '[' ∉ ("c@y.com" : String).data ∧
     '[' ∉ (toString (60 : Nat)).data ∧
     '[' ∉ ("Monday, March 10 at 10:00 AM" : String).data) ∧
    containsTagged
      (availabilityBody "req_20250310120000_c" (demoRequest "pending" none)
        demoSlots false) "req_20250310120000_c" ∧
    (∀ tok,
      ¬ containsTagged (cancellationMail (demoRequest "pending" none)).body tok) :=
  ⟨⟨by decide, by decide, by decide, by decide⟩,
    (tagged_line_only_in_offers "req_20250310120000_c" (demoRequest "pending" none)
      demoSlots false demoMatchedSlot ⟨none⟩ (by decide) (by decide) (by decide)
      (by decide) (fun s hs => by cases hs)).1,
    (tagged_line_only_in_offers "req_20250310120000_c" (demoRequest "pending" none)
      demoSlots false demoMatchedSlot ⟨none⟩ (by decide) (by decide) (by decide)
      (by decide) (fun s hs => by cases hs)).2.1⟩

/-- C5: when the extracted respondent slot list is empty (falsy) or
overlap matching finds no match, `_process_candidate_availability` routes
to `_handle_no_overlap`, which queries the calendar once with the widened
21-day lookahead excluding exactly the current `offered_slots`; a
non-empty batch is appended to `offered_slots` (never replacing them),
one retry offer is sent and the status field is left untouched; an empty
batch sets `needs_human` and sends exactly one escalation notice to the
requester.  (Terminality of `needs_human` is not part of this theorem:
the counterexample shows a later reply still triggers a further fetch.) -/
theorem noOverlap_policy (env : Env) (requestId : String) (req : Request)
    (slotsV : JsonV)
    (hno : truthy slotsV = false ∨
      ∃ css, jsonElems slotsV = Except.ok css ∧
        findOverlap req.recruiterSlots css req.durationMinutes = []) :
    processCandidateAvailability env requestId req slotsV =
      (let req1 : Request := {req with candidateSlots := slotsV}
       let q : CalQuery := ⟨req.recruiterEmail, req.durationMinutes, 21, req.recruiterSlots⟩
       let batch := env.availableSlots q
       if batch.isEmpty then
         (.ok .escalated, {req1 with status := "needs_human"},
          ⟨[escalationMail {req1 with status := "needs_human"}], [], [q]⟩)
       else
         (.ok .retrySent, {req1 with recruiterSlots := req.recruiterSlots ++ batch},
          ⟨[availabilityMail requestId
              {req1 with recruiterSlots := req.recruiterSlots ++ batch} batch true],
            [], [q]⟩)) := by
  unfold processCandidateAvailability handleNoOverlap
  by_cases ht : truthy slotsV
  · rcases hno with hno | ⟨css, hje, hov⟩
    · rw [ht] at hno; cases hno
    · simp only [ht, Bool.not_true, Bool.false_eq_true, if_neg, if_false, hje, hov]
      by_cases hbe : (env.availableSlots
          ⟨req.recruiterEmail, req.durationMinutes, 21, req.recruiterSlots⟩).isEmpty <;>
        simp [hbe]
  · simp only [Bool.not_eq_true] at ht
    simp only [ht, Bool.not_false, if_true]
    by_cases hbe : (env.availableSlots
        ⟨req.recruiterEmail, req.durationMinutes, 21, req.recruiterSlots⟩).isEmpty <;>
      simp [hbe]

/-- C5 witness: an empty extracted slot list with a non-empty widened
batch extends the offered slots and sends one retry offer, leaving the
status untouched. -/
theorem noOverlap_policy_witness :
    (truthy (.arr []) = false ∨
      ∃ css, jsonElems (.arr []) = Except.ok css ∧
        findOverlap (demoRequest "awaiting_candidate" none).recruiterSlots css
          (demoRequest "awaiting_candidate" none).durationMinutes = []) ∧
    processCandidateAvailability
        (envOf .null [⟨"2025-03-20T09:00:00", "2025-03-20T10:00:00"⟩] (.ok ⟨none⟩))
        "req_1" (demoRequest "awaiting_candidate" none) (.arr []) =
      (let req1 : Request :=
        {demoRequest "awaiting_candidate" none with candidateSlots := .arr []}
       let q : CalQuery := ⟨"r@x.com", 60, 21, demoSlots⟩
       let batch := (envOf .null [⟨"2025-03-20T09:00:00", "2025-03-20T10:00:00"⟩]
          (.ok ⟨none⟩)).availableSlots q
       if batch.isEmpty then
         (.ok .escalated, {req1 with status := "needs_human"},
          ⟨[escalationMail {req1 with status := "needs_human"}], [], [q]⟩)
       else
         (.ok .retrySent, {req1 with recruiterSlots := demoSlots ++ batch},
          ⟨[availabilityMail "req_1"
              {req1 with recruiterSlots := demoSlots ++ batch} batch true],
            [], [q]⟩)) :=
  ⟨Or.inl rfl,
    noOverlap_policy
      (envOf .null [⟨"2025-03-20T09:00:00", "2025-03-20T10:00:00"⟩] (.ok ⟨none⟩))
      "req_1" (demoRequest "awaiting_candidate" none) (.arr []) (Or.inl rfl)⟩

/-- C9: when the extractor's raw output fails JSON parsing entirely (both
`json.loads` on the cleaned response and the `{.*}` fallback), the core
falls back to intent `unclear` with an empty slot list:
`handle_email_reply` returns an `awaiting_response` outcome, the only
Request change is the history append, and nothing is sent or booked. -/
theorem unparseable_extractor_output_degrades (env : Env)
    (m : List (String × Request)) (requestId sender emailBody : String)
    (req : Request) (hreq : List.lookup requestId m = some req)
    (hp : (env.extract emailBody req.recruiterSlots).parsed = none)
    (hf : (env.extract emailBody req.recruiterSlots).fallbackParsed = none) :
    handleEmailReply env m requestId sender emailBody =
      (.ok .awaitingResponse,
       mapInsert m requestId
         {req with conversationHistory := req.conversationHistory ++ [(sender, emailBody)]},
       Trace.nil) := by
  unfold handleEmailReply extractAvailability
  rw [hreq]
  simp only [hp, hf, List.lookup, isStrEq, truthy]
  rfl

/-- C9 witness: an extractor whose raw output parses on neither path
degrades to `awaiting_response` with only the history appended. -/
theorem unparseable_extractor_output_degrades_witness :
    List.lookup "req_1" [("req_1", demoRequest "awaiting_candidate" none)] =
      some (demoRequest "awaiting_candidate" none) ∧
    ((⟨fun _ _ => ⟨none, none, "not json at all"⟩, fun _ => [],
        fun _ => .ok ⟨none⟩⟩ : Env).extract "word salad"
          (demoRequest "awaiting_candidate" none).recruiterSlots).parsed = none ∧
    ((⟨fun _ _ => ⟨none, none, "not json at all"⟩, fun _ => [],
        fun _ => .ok ⟨none⟩⟩ : Env).extract "word salad"
          (demoRequest "awaiting_candidate" none).recruiterSlots).fallbackParsed = none ∧
    handleEmailReply
        (⟨fun _ _ => ⟨none, none, "not json at all"⟩, fun _ => [],
          fun _ => .ok ⟨none⟩⟩ : Env)
        [("req_1", demoRequest "awaiting_candidate" none)]
        "req_1" "c@y.com" "word salad" =
      (.ok .awaitingResponse,
       mapInsert [("req_1", demoRequest "awaiting_candidate" none)] "req_1"
         {demoRequest "awaiting_candidate" none with
            conversationHistory :=
              (demoRequest "awaiting_candidate" none).conversationHistory ++
                [("c@y.com", "word salad")]},
       Trace.nil) :=
  ⟨rfl, rfl, rfl,
    unparseable_extractor_output_degrades _ _ "req_1" "c@y.com" "word salad"
      (demoRequest "awaiting_candidate" none) rfl rfl rfl⟩

/-- C10 witness: a slot stating 10:00–09:00 on 2025-03-10 with a one-hour
duration gets the fallback end 11:00, strictly after the start. -/
theorem candidate_end_strictly_after_start_witness :
    0 < 60 ∧
    parseCandidateSlotStart demoEndBeforeStartSlot =
      some ⟨2025, 3, 10, 10, 0, 0, 0⟩ ∧
    (parseCandidateSlotEnd demoEndBeforeStartSlot 60 =
      some (match statedEndDT demoEndBeforeStartSlot with
            | some en =>
              if (DateTime.mk 2025 3 10 10 0 0 0).toMicros < en.toMicros then en.toMicros
              else (DateTime.mk 2025 3 10 10 0 0 0).toMicros + minutesToMicros 60
            | none => (DateTime.mk 2025 3 10 10 0 0 0).toMicros + minutesToMicros 60) ∧
     ∀ e, parseCandidateSlotEnd demoEndBeforeStartSlot 60 = some e →
       (DateTime.mk 2025 3 10 10 0 0 0).toMicros < e) :=
  ⟨by decide, rfl,
    candidate_end_strictly_after_start demoEndBeforeStartSlot 60 (by decide) _ rfl⟩

end PingSchedule
